import Mathlib

/-!
# go-socket.io: broadcast adaptor and per-connection protocol loop

A shallow embedding of `adapter.go` and `socket.go`.

* Go maps are modelled by `Finmap`: finite partial maps whose equality is
  extensional and which carry no iteration order.  A `range` over a map
  visits every entry exactly once in an order chosen by the runtime
  (`RangeOrder`); the calls made by such a loop are collected as a multiset,
  which is the same for every order.
* Collaborators that are not part of the two files (the engine.io
  connection, the encoder/decoder, `socketHandler`) are modelled by the
  outcome they hand back to the code; every call made on them is recorded
  in a trace.
-/

namespace Socketio

/-- An opaque argument value (`interface{}`) carried in a packet or an event. -/
abbrev Value := String

/-- A non-nil Go `error` value, identified by its message. -/
abbrev Error := String

/-! ## adapter.go -/

/-- A non-nil `SocketInf` interface value.  A connection is identified by the
session id its `Id()` method returns (the transport-assigned identity, stable
for the lifetime of the connection); what its other methods do is given
separately, by the outcome of each call. -/
structure SocketInf where
  Id : String
deriving DecidableEq, Repr

/-- The inner map of a room, `map[string]SocketInf`, keyed by session id. -/
abbrev Sockets := Finmap (fun _ : String => SocketInf)

/-- The registry `broadcast` (the `RWMutex` is left out: every method body
runs as one critical section). -/
structure broadcast where
  m : Finmap (fun _ : String => Sockets)

/-- Function `newBroadcastDefault`: a registry with an empty room map. -/
def newBroadcastDefault : broadcast :=
  ⟨∅⟩

/-- The value read by `b.m[room]`: the stored inner map, or the nil (empty)
map when the room is absent. -/
def broadcast.room (b : broadcast) (room : String) : Sockets :=
  (b.m.lookup room).getD ∅

/-- Function `broadcast.Join`: returns the updated registry and the returned error. -/
def broadcast.Join (b : broadcast) (room : String) (socket : SocketInf) :
    broadcast × Option Error :=
  let sockets : Sockets :=
    match b.m.lookup room with
    | some sockets => sockets
    | none => ∅
  let sockets := sockets.insert socket.Id socket
  (⟨b.m.insert room sockets⟩, none)

/-- Function `broadcast.Leave`: returns the updated registry and the returned error. -/
def broadcast.Leave (b : broadcast) (room : String) (socket : SocketInf) :
    broadcast × Option Error :=
  match b.m.lookup room with
  | none => (b, none)
  | some sockets =>
    let sockets := sockets.erase socket.Id
    if Multiset.card sockets.entries = 0 then
      (⟨b.m.erase room⟩, none)
    else
      (⟨b.m.insert room sockets⟩, none)

/-- One call `s.Emit(event, args...)` made by `Send`, with the error the
callee returned. -/
structure EmitCall where
  socket : SocketInf
  event : String
  args : List Value
  err : Option Error
deriving DecidableEq, Repr

/-- The behaviour of the members: the error `s.Emit(event, args...)` returns. -/
abbrev EmitOutcome := SocketInf → String → List Value → Option Error

/-- An order in which `range sockets` may visit the entries of the map. -/
def RangeOrder (sockets : Sockets) (order : List (Sigma fun _ : String => SocketInf)) : Prop :=
  (order : Multiset (Sigma fun _ : String => SocketInf)) = sockets.entries

/-- The guard `ignore != nil && ignore.Id() == id` of the loop of `Send`. -/
def skipped (ignore : Option SocketInf) (id : String) : Bool :=
  match ignore with
  | none => false
  | some ig => ig.Id == id

/-- The `for id, s := range sockets` loop of `Send`, run over the entries in
the given order.  Every `s.Emit(event, args...)` is appended to the trace with
the error it returned; the loop itself drops that error, as the source does. -/
def sendLoop (emit : EmitOutcome) (ignore : Option SocketInf) (event : String)
    (args : List Value) :
    List (Sigma fun _ : String => SocketInf) → List EmitCall → List EmitCall
  | [], calls => calls
  | ⟨id, s⟩ :: rest, calls =>
    if skipped ignore id then
      sendLoop emit ignore event args rest calls
    else
      sendLoop emit ignore event args rest (calls ++ [⟨s, event, args, emit s event args⟩])

/-- The `Emit` calls made by the loop of `Send` over the map `sockets`.  Go does
not fix the order in which `range` visits the entries; the loop is run over
the entries of the map, and its calls are collected as a multiset, which does
not depend on the order in which the entries are visited. -/
def sendCalls (emit : EmitOutcome) (ignore : Option SocketInf) (event : String)
    (args : List Value) (sockets : Sockets) : Multiset EmitCall :=
  Quotient.liftOn sockets.entries
    (fun order => (sendLoop emit ignore event args order [] : Multiset EmitCall))
    (fun o₁ o₂ h => by
      have key : ∀ (l : List (Sigma fun _ : String => SocketInf)) (calls : List EmitCall),
          sendLoop emit ignore event args l calls =
            calls ++ (l.filter (fun x => !skipped ignore x.1)).map
              (fun x => (⟨x.2, event, args, emit x.2 event args⟩ : EmitCall)) := by
        intro l
        induction l with
        | nil => intro calls; simp [sendLoop]
        | cons x rest ih =>
          intro calls
          obtain ⟨id, s⟩ := x
          unfold sendLoop
          by_cases hs : skipped ignore id
          · simp [hs, ih]
          · simp [hs, ih]
      simp only [key, List.nil_append]
      exact Multiset.coe_eq_coe.mpr ((List.Perm.filter _ h).map _))

/-- Function `broadcast.Send`: the `Emit` calls made while ranging over
`b.m[room]`, and the returned error. -/
def broadcast.Send (b : broadcast) (emit : EmitOutcome) (ignore : Option SocketInf)
    (room event : String) (args : List Value) : Multiset EmitCall × Option Error :=
  let sockets := b.room room
  (sendCalls emit ignore event args sockets, none)

/-! ## socket.go -/

/-- Modelled from the spec: the closed enumeration of packet types (its
declaration lies outside the two source files). -/
inductive packetType where
  | _CONNECT
  | _DISCONNECT
  | _EVENT
  | _ACK
  | _BINARY_EVENT
deriving DecidableEq, Repr

/-- Modelled from the spec: the packet envelope (its declaration lies outside
the two source files): type, correlation id (`-1`: none), namespace and the
ordered argument values.  The zero value of `NSP` is `""`, of `Data` nil.
`Type_` is the field `Type`. -/
structure packet where
  Type_ : packetType
  Id : Int
  NSP : String
  Data : List Value
deriving DecidableEq, Repr

/-- The fields of `Socket` the code reads and writes.  `conn` and the embedded
`socketHandler` are collaborators: calls on them appear in the trace.
`namespace_` is the field `namespace`. -/
structure Socket where
  namespace_ : String
  id : Int
deriving DecidableEq, Repr

/-- The fields of the `Socket` built by `NewSocket`: `namespace` and `id` are
left at their zero values. -/
def NewSocket : Socket :=
  ⟨"", 0⟩

/-- A call the code makes on a collaborator. -/
inductive Event where
  /-- The call `newEncoder(s.conn).Encode(p)` and the error it returned. -/
  | encode (p : packet) (err : Option Error)
  /-- A call `newDecoder(s.conn).Decode(&p)` that filled in `p`. -/
  | decodeOk (p : packet)
  /-- A call `newDecoder(s.conn).Decode(&p)` that returned an error. -/
  | decodeErr (err : Error)
  /-- The call `s.socketHandler.onPacket(decoder, &p)`; `decoder` is `false`
  when the decoder argument is nil. -/
  | onPacket (decoder : Bool) (p : packet)
  /-- The call `s.LeaveAll()`. -/
  | leaveAll
  /-- The call `s.socketHandler.Emit(event, args...)` and the error it returned. -/
  | handlerEmit (event : String) (args : List Value) (err : Option Error)
  /-- The call `s.conn.Close()`. -/
  | close
deriving DecidableEq, Repr

/-- The width of the Go type `int` on the 64-bit targets. -/
def intBits : Nat := 64

/-- The largest `int`. -/
def maxInt : Int := 2 ^ (intBits - 1) - 1

/-- The smallest `int`. -/
def minInt : Int := -2 ^ (intBits - 1)

/-- Two's-complement reduction of an integer to the range of `int`. -/
def wrapInt (x : Int) : Int :=
  (x + 2 ^ (intBits - 1)) % 2 ^ intBits - 2 ^ (intBits - 1)

/-- Function `Socket.Emit`; `handler` is the error `s.socketHandler.Emit` returns. -/
def Socket.Emit (_s : Socket) (handler : Option Error) (event : String) (args : List Value) :
    List Event × Option Error :=
  match handler with
  | some err => ([.handlerEmit event args (some err)], some err)
  | none =>
    if event = "disconnect" then
      ([.handlerEmit event args none, .close], none)
    else
      ([.handlerEmit event args none], none)

/-- Function `Socket.Disconnect`. -/
def Socket.Disconnect (_s : Socket) : List Event :=
  [.close]

/-- Function `Socket.send`; `enc` is the error `Encode` returns. -/
def Socket.send (s : Socket) (args : List Value) (enc : Option Error) :
    List Event × Option Error :=
  let packet : packet := ⟨._EVENT, -1, s.namespace_, args⟩
  ([.encode packet enc], enc)

/-- Function `Socket.sendConnect`; `enc` is the error `Encode` returns. -/
def Socket.sendConnect (s : Socket) (enc : Option Error) : List Event × Option Error :=
  let packet : packet := ⟨._CONNECT, -1, s.namespace_, []⟩
  ([.encode packet enc], enc)

/-- Function `Socket.sendId`; `enc` is the error `Encode` returns.  The result is the
updated socket, the calls made, and the returned pair `(int, error)`. -/
def Socket.sendId (s : Socket) (args : List Value) (enc : Option Error) :
    Socket × List Event × (Int × Option Error) :=
  let packet : packet := ⟨._EVENT, s.id, s.namespace_, args⟩
  let id := wrapInt (s.id + 1)
  let id := if id < 0 then 0 else id
  let s := { s with id := id }
  match enc with
  | some _ => (s, [.encode packet enc], (-1, none))
  | none => (s, [.encode packet enc], (packet.Id, none))

/-- What the collaborators hand back during one iteration of the `for` of
`Loop`: the result of `Decode`, of `onPacket`, and of the `Encode` the
iteration performs, if it performs one. -/
structure Step where
  decode : Except Error packet
  dispatch : List Value × Option Error
  encode : Option Error

/-- How far a run of `Loop` got: `blocked` in `Decode` waiting for the next
packet (the inputs are used up), or returned to its caller with an error or nil. -/
inductive Outcome where
  | blocked
  | returned (err : Option Error)
deriving DecidableEq, Repr

/-- One iteration of the `for` of `Loop` in state `s`: the updated socket, the
calls made, and `some r` when the iteration executes `return r`, `none` when
it falls through to the next iteration.  The collaborator `onPacket` is handed
a pointer to the packet; it is taken to leave the header fields `Type`, `Id`
and `NSP` as decoded (it may fill in `Data`, which `Loop` does not read again),
so the `switch` inspects the decoded header. -/
def iteration (s : Socket) (st : Step) : Socket × List Event × Option (Option Error) :=
  match st.decode with
  | .error err => (s, [.decodeErr err], some (some err))
  | .ok p =>
    match st.dispatch with
    | (_, some err) => (s, [.decodeOk p, .onPacket true p], some (some err))
    | (ret, none) =>
      match p.Type_ with
      | ._CONNECT =>
        let s := { s with namespace_ := p.NSP }
        (s, [.decodeOk p, .onPacket true p] ++ (s.sendConnect st.encode).1, none)
      | ._BINARY_EVENT | ._EVENT =>
        if p.Id ≥ 0 then
          let ack : packet := ⟨._ACK, p.Id, s.namespace_, ret⟩
          match st.encode with
          | some err => (s, [.decodeOk p, .onPacket true p, .encode ack (some err)], some (some err))
          | none => (s, [.decodeOk p, .onPacket true p, .encode ack none], none)
        else
          (s, [.decodeOk p, .onPacket true p], none)
      | ._DISCONNECT => (s, [.decodeOk p, .onPacket true p], some none)
      | ._ACK => (s, [.decodeOk p, .onPacket true p], none)

/-- The `for` of `Loop`, fed with the inputs of its successive iterations. -/
def forLoop (s : Socket) : List Step → Socket × List Event × Outcome
  | [] => (s, [], .blocked)
  | st :: rest =>
    match iteration s st with
    | (s, calls, some r) => (s, calls, .returned r)
    | (s, calls, none) =>
      let next := forLoop s rest
      (next.1, calls ++ next.2.1, next.2.2)

/-- The inputs of a run of `Loop`: the error returned by the `Encode` of the
initial CONNECT packet, and the inputs of the iterations. -/
structure LoopEnv where
  connect : Option Error
  steps : List Step

/-- The packet `packet{Type: _DISCONNECT, Id: -1}` built by the deferred
function of `Loop`. -/
def disconnectPacket : packet :=
  ⟨._DISCONNECT, -1, "", []⟩

/-- The packet `packet{Type: _CONNECT, Id: -1}` built at the start of `Loop`. -/
def connectPacket : packet :=
  ⟨._CONNECT, -1, "", []⟩

/-- The deferred function of `Loop`: `LeaveAll`, then the dispatch of the
synthetic DISCONNECT packet with a nil decoder; both results are dropped. -/
def deferred : List Event :=
  [.leaveAll, .onPacket false disconnectPacket]

/-- The body of `Loop` without the deferred function. -/
def loopBody (s : Socket) (env : LoopEnv) : Socket × List Event × Outcome :=
  let p : packet := connectPacket
  match env.connect with
  | some err => (s, [.encode p (some err)], .returned (some err))
  | none =>
    let run := forLoop s env.steps
    (run.1, [.encode p none, .onPacket false p] ++ run.2.1, run.2.2)

/-- Function `Socket.Loop`: the deferred function runs when the body returns. -/
def Socket.Loop (s : Socket) (env : LoopEnv) : Socket × List Event × Outcome :=
  match loopBody s env with
  | (s, calls, .returned r) => (s, calls ++ deferred, .returned r)
  | (s, calls, .blocked) => (s, calls, .blocked)

/-- The pairs `(int, error)` returned by successive calls of `sendId` on one
connection, in the order in which the calls take the connection mutex; each
call comes with its arguments and the outcome of its `Encode`. -/
def sendIdSeq (s : Socket) : List (List Value × Option Error) → List (Int × Option Error)
  | [] => []
  | (args, enc) :: rest => (s.sendId args enc).2.2 :: sendIdSeq (s.sendId args enc).1 rest

/-- The `Id` fields of the packets handed to `Encode` by successive calls of
`sendId`, in the order in which the calls take the connection mutex. -/
def reservedIds (s : Socket) : List (List Value × Option Error) → List Int
  | [] => []
  | (args, enc) :: rest => s.id :: reservedIds (s.sendId args enc).1 rest

/-! ## Reachable registry states and the predicates the theorems use -/

/-- The registry states the program can be in: the registry built by
`newBroadcastDefault`, changed by any sequence of `Join` and `Leave` calls
(`Send` does not write the registry). -/
inductive Reachable : broadcast → Prop where
  | init : Reachable newBroadcastDefault
  | join (b : broadcast) (room : String) (socket : SocketInf) :
      Reachable b → Reachable (b.Join room socket).1
  | leave (b : broadcast) (room : String) (socket : SocketInf) :
      Reachable b → Reachable (b.Leave room socket).1

/-- Every stored socket is stored under its own session id. -/
def KeyedById (b : broadcast) : Prop :=
  ∀ (room : String) (sockets : Sockets), b.m.lookup room = some sockets →
    ∀ (id : String) (s : SocketInf), sockets.lookup id = some s → s.Id = id

/-- No room name is mapped to an empty member map. -/
def NoEmptyRoom (b : broadcast) : Prop :=
  ∀ (room : String) (sockets : Sockets), b.m.lookup room = some sockets → sockets ≠ ∅

/-- Socket `s` is currently a member of `room`: the room's map holds `s` under
its session id. -/
def broadcast.Member (b : broadcast) (room : String) (s : SocketInf) : Prop :=
  (b.room room).lookup s.Id = some s

/-- The number of `Emit` calls of a trace that were made on socket `s`. -/
def emitCount (calls : Multiset EmitCall) (s : SocketInf) : Nat :=
  (calls.map EmitCall.socket).count s

/-- Three connections, used in the worked examples. -/
def sockA : SocketInf := ⟨"c1"⟩

/-- See `sockA`. -/
def sockB : SocketInf := ⟨"c2"⟩

/-- See `sockA`. -/
def sockC : SocketInf := ⟨"c3"⟩

/-- The registry after `c1`, `c2` and `c3` joined `"room"`. -/
def roomOfThree : broadcast :=
  (((newBroadcastDefault.Join "room" sockA).1.Join "room" sockB).1.Join "room" sockC).1

/-- An `Emit` behaviour in which the call on `c2` fails. -/
def emitFailsOnB : EmitOutcome :=
  fun s _ _ => if s.Id = "c2" then some "connection closed" else none

/-- The inputs of an iteration meet one of the three terminal conditions the
spec names: `Decode` fails, `onPacket` fails for the decoded packet, or the
decoded packet is a DISCONNECT. -/
def Step.endsLoop (st : Step) : Prop :=
  (∃ err, st.decode = .error err) ∨
    (∃ p, st.decode = .ok p ∧ st.dispatch.2 ≠ none) ∨
    (∃ p, st.decode = .ok p ∧ p.Type_ = ._DISCONNECT)

/-- The registry after `c1` joined `"lobby"` and left it again. -/
def lobbyLeft : broadcast :=
  ((newBroadcastDefault.Join "lobby" sockA).1.Leave "lobby" sockA).1

/-- Inputs of an iteration: the peer sends CONNECT for namespace `/chat`. -/
def stepConnectChat : Step :=
  ⟨.ok ⟨._CONNECT, -1, "/chat", []⟩, ([], none), none⟩

/-- Inputs of an iteration: the peer sends an EVENT with `Id = 7`, the handler
returns an empty result, the `Encode` of the reply succeeds. -/
def stepEventSeven : Step :=
  ⟨.ok ⟨._EVENT, 7, "/chat", ["ping"]⟩, ([], none), none⟩

/-! ## Further predicates and worked-example inputs -/

/-- The member ids of a room: the keys of the map read by `b.m[room]`. -/
def broadcast.memberIds (b : broadcast) (room : String) : Finset String :=
  (b.room room).keys

/-- The registry after `c1` and `c2` joined `"lobby"`. -/
def lobbyOfTwo : broadcast :=
  ((newBroadcastDefault.Join "lobby" sockA).1.Join "lobby" sockB).1

/-- The event is a call of `Decode`. -/
def Event.isDecode : Event → Bool
  | .decodeOk _ => true
  | .decodeErr _ => true
  | _ => false

/-- The event is a call of `onPacket` with a packet of type DISCONNECT. -/
def Event.isDisconnectDispatch : Event → Bool
  | .onPacket _ p => decide (p.Type_ = ._DISCONNECT)
  | _ => false

/-- The event is a `Decode` that yielded a packet of type DISCONNECT. -/
def Event.isDecodedDisconnect : Event → Bool
  | .decodeOk p => decide (p.Type_ = ._DISCONNECT)
  | _ => false

/-- The inputs of an iteration make it execute `return r`: `Decode` fails,
`onPacket` fails, the decoded packet is a DISCONNECT, or the `Encode` of the
ACK of an EVENT or BINARY_EVENT with `Id >= 0` fails. -/
def Step.returnsWith (st : Step) (r : Option Error) : Prop :=
  (∃ e, st.decode = .error e ∧ r = some e) ∨
    (∃ p e, st.decode = .ok p ∧ st.dispatch.2 = some e ∧ r = some e) ∨
    (∃ p, st.decode = .ok p ∧ st.dispatch.2 = none ∧ p.Type_ = ._DISCONNECT ∧ r = none) ∨
    (∃ p e, st.decode = .ok p ∧ st.dispatch.2 = none ∧
      (p.Type_ = ._EVENT ∨ p.Type_ = ._BINARY_EVENT) ∧ 0 ≤ p.Id ∧
      st.encode = some e ∧ r = some e)

/-- Something that happens on a connection while its `Loop` runs: the next
iteration of the `for` of `Loop`, or a call of `send` or `sendId` made for
that connection (an outbound EVENT). -/
inductive Action where
  | iterate (st : Step)
  | send (args : List Value) (enc : Option Error)
  | sendId (args : List Value) (enc : Option Error)

/-- The action is an iteration of `Loop` whose `Decode` yields a CONNECT packet. -/
def Action.receivesConnect : Action → Bool
  | .iterate st =>
    match st.decode with
    | .ok p => decide (p.Type_ = ._CONNECT)
    | .error _ => false
  | _ => false

/-- The connection state and the calls made after a sequence of actions, taken
in the order given; the sequence ends when an iteration of `Loop` returns. -/
def runActions (s : Socket) : List Action → Socket × List Event
  | [] => (s, [])
  | .iterate st :: rest =>
    match iteration s st with
    | (s, calls, some _) => (s, calls)
    | (s, calls, none) => ((runActions s rest).1, calls ++ (runActions s rest).2)
  | .send args enc :: rest =>
    ((runActions s rest).1, (s.send args enc).1 ++ (runActions s rest).2)
  | .sendId args enc :: rest =>
    ((runActions (s.sendId args enc).1 rest).1,
      (s.sendId args enc).2.1 ++ (runActions (s.sendId args enc).1 rest).2)

/-- Inputs of an iteration: as `stepEventSeven`, but the `Encode` of the ACK fails. -/
def stepEventSevenWriteFails : Step :=
  ⟨.ok ⟨._EVENT, 7, "/chat", ["ping"]⟩, ([], none), some "write failed"⟩

/-- Inputs of a run: CONNECT for `/chat`, then an EVENT whose ACK cannot be written. -/
def envAckWriteFails : LoopEnv :=
  ⟨none, [stepConnectChat, stepEventSevenWriteFails]⟩

/-- What follows a CONNECT in the worked example: an EVENT with `Id = 7` is
received, then `send` and `sendId` are called. -/
def actionsAfterConnect : List Action :=
  [.iterate stepEventSeven, .send ["hello"] none, .sendId ["question"] none]

/-! ## The registry: lookups after `Join` and `Leave`, invariants -/

theorem broadcast.eq_of_m {b b' : broadcast} (h : b.m = b'.m) : b = b' := by
  cases b; cases b'; simp_all

theorem sockets_card_eq_zero (s : Sockets) : Multiset.card s.entries = 0 ↔ s = ∅ := by
  rw [Multiset.card_eq_zero]
  constructor
  · intro h
    exact Finmap.ext h
  · intro h
    rw [h]
    rfl

theorem broadcast.room_of_lookup {b : broadcast} {room : String} {sockets : Sockets}
    (h : b.m.lookup room = some sockets) : b.room room = sockets := by
  simp [broadcast.room, h]

theorem broadcast.Join_m (b : broadcast) (room : String) (socket : SocketInf) :
    (b.Join room socket).1.m = b.m.insert room ((b.room room).insert socket.Id socket) := by
  unfold broadcast.Join broadcast.room
  cases b.m.lookup room <;> rfl

theorem broadcast.lookup_Join (b : broadcast) (room : String) (socket : SocketInf) (r : String) :
    (b.Join room socket).1.m.lookup r =
      if r = room then some ((b.room room).insert socket.Id socket) else b.m.lookup r := by
  rw [broadcast.Join_m]
  by_cases h : r = room
  · subst h
    simp [Finmap.lookup_insert]
  · simp [h, Finmap.lookup_insert_of_ne]

theorem broadcast.lookup_Leave (b : broadcast) (room : String) (socket : SocketInf) (r : String) :
    (b.Leave room socket).1.m.lookup r =
      if r = room then
        (if (b.room room).erase socket.Id = ∅ then none
          else (b.m.lookup room).map (fun sockets => sockets.erase socket.Id))
      else b.m.lookup r := by
  unfold broadcast.Leave
  cases hl : b.m.lookup room with
  | none =>
    by_cases h : r = room
    · subst h; simp [hl]
    · simp [h]
  | some sockets =>
    have hr : b.room room = sockets := broadcast.room_of_lookup hl
    simp only [hr, sockets_card_eq_zero]
    by_cases he : sockets.erase socket.Id = ∅
    · by_cases h : r = room
      · subst h; simp [he, Finmap.lookup_erase]
      · simp [he, h, Finmap.lookup_erase_ne h]
    · by_cases h : r = room
      · subst h; simp [he, Finmap.lookup_insert]
      · simp [he, h, Finmap.lookup_insert_of_ne]

theorem sockets_insert_ne_empty (s : Sockets) (id : String) (c : SocketInf) :
    s.insert id c ≠ ∅ := by
  intro h
  have := Finmap.lookup_insert (a := id) (b := c) s
  rw [h, Finmap.lookup_empty] at this
  cases this

theorem keyedById_Join {b : broadcast} (h : KeyedById b) (room : String) (socket : SocketInf) :
    KeyedById (b.Join room socket).1 := by
  intro r sockets hr id s hs
  rw [broadcast.lookup_Join] at hr
  by_cases hreq : r = room
  · simp only [hreq, if_true, Option.some.injEq] at hr
    subst hr
    by_cases hid : id = socket.Id
    · subst hid
      rw [Finmap.lookup_insert] at hs
      cases hs
      rfl
    · rw [Finmap.lookup_insert_of_ne _ hid] at hs
      cases hl : b.m.lookup room with
      | none =>
        simp [broadcast.room, hl, Finmap.lookup_empty] at hs
      | some old =>
        rw [broadcast.room_of_lookup hl] at hs
        exact h room old hl id s hs
  · simp only [hreq, if_false] at hr
    exact h r sockets hr id s hs

theorem keyedById_Leave {b : broadcast} (h : KeyedById b) (room : String) (socket : SocketInf) :
    KeyedById (b.Leave room socket).1 := by
  intro r sockets hr id s hs
  rw [broadcast.lookup_Leave] at hr
  by_cases hreq : r = room
  · simp only [hreq, if_true] at hr
    split at hr
    · cases hr
    · cases hl : b.m.lookup room with
      | none => simp [hl] at hr
      | some old =>
        simp only [hl, Option.map_some', Option.some.injEq] at hr
        subst hr
        by_cases hid : id = socket.Id
        · subst hid
          rw [Finmap.lookup_erase] at hs
          cases hs
        · rw [Finmap.lookup_erase_ne hid] at hs
          exact h room old hl id s hs
  · simp only [hreq, if_false] at hr
    exact h r sockets hr id s hs

theorem noEmptyRoom_Join {b : broadcast} (h : NoEmptyRoom b) (room : String) (socket : SocketInf) :
    NoEmptyRoom (b.Join room socket).1 := by
  intro r sockets hr
  rw [broadcast.lookup_Join] at hr
  by_cases hreq : r = room
  · simp only [hreq, if_true, Option.some.injEq] at hr
    subst hr
    exact sockets_insert_ne_empty _ _ _
  · simp only [hreq, if_false] at hr
    exact h r sockets hr

theorem noEmptyRoom_Leave {b : broadcast} (h : NoEmptyRoom b) (room : String) (socket : SocketInf) :
    NoEmptyRoom (b.Leave room socket).1 := by
  intro r sockets hr
  rw [broadcast.lookup_Leave] at hr
  by_cases hreq : r = room
  · simp only [hreq, if_true] at hr
    split at hr
    · cases hr
    · rename_i hne
      cases hl : b.m.lookup room with
      | none => simp [hl] at hr
      | some old =>
        simp only [hl, Option.map_some', Option.some.injEq] at hr
        rw [broadcast.room_of_lookup hl] at hne
        subst hr
        exact hne
  · simp only [hreq, if_false] at hr
    exact h r sockets hr

theorem Reachable.keyedById {b : broadcast} (h : Reachable b) : KeyedById b := by
  induction h with
  | init =>
    intro r sockets hr
    simp [newBroadcastDefault, Finmap.lookup_empty] at hr
  | join b room socket _ ih => exact keyedById_Join ih room socket
  | leave b room socket _ ih => exact keyedById_Leave ih room socket

theorem Reachable.noEmptyRoom {b : broadcast} (h : Reachable b) : NoEmptyRoom b := by
  induction h with
  | init =>
    intro r sockets hr
    simp [newBroadcastDefault, Finmap.lookup_empty] at hr
  | join b room socket _ ih => exact noEmptyRoom_Join ih room socket
  | leave b room socket _ ih => exact noEmptyRoom_Leave ih room socket

/-! ## Claims about `Join` and `Leave` -/

theorem reachable_roomOfThree : Reachable roomOfThree :=
  .join _ _ _ (.join _ _ _ (.join _ _ _ .init))

theorem sockets_erase_of_not_mem {s : Sockets} {id : String} (h : id ∉ s) : s.erase id = s := by
  apply Finmap.ext_lookup
  intro x
  by_cases hx : x = id
  · subst hx
    rw [Finmap.lookup_erase]
    exact (Finmap.lookup_eq_none.mpr h).symm
  · exact Finmap.lookup_erase_ne hx

theorem finmap_insert_of_lookup {m : Finmap (fun _ : String => Sockets)} {room : String}
    {sockets : Sockets} (h : m.lookup room = some sockets) : m.insert room sockets = m := by
  apply Finmap.ext_lookup
  intro x
  by_cases hx : x = room
  · subst hx
    rw [Finmap.lookup_insert, h]
  · exact Finmap.lookup_insert_of_ne _ hx

theorem broadcast.room_Join (b : broadcast) (room : String) (socket : SocketInf) :
    (b.Join room socket).1.room room = (b.room room).insert socket.Id socket := by
  unfold broadcast.room
  rw [broadcast.lookup_Join]
  simp [broadcast.room]

/-- C7: `Join` is idempotent.  Joining the same socket to the same room a second
time leaves the whole registry as the first join left it, and both calls
return nil. -/
theorem Join_idempotent (b : broadcast) (r : String) (c : SocketInf) :
    ((b.Join r c).1.Join r c).1 = (b.Join r c).1 ∧
      (b.Join r c).2 = none ∧ ((b.Join r c).1.Join r c).2 = none := by
  refine ⟨?_, rfl, rfl⟩
  apply broadcast.eq_of_m
  rw [broadcast.Join_m (b.Join r c).1, broadcast.room_Join, broadcast.Join_m,
    Finmap.insert_insert, Finmap.insert_insert]

theorem not_mem_of_not_Member {b : broadcast} (hb : KeyedById b) {r : String}
    {sockets : Sockets} (hl : b.m.lookup r = some sockets) {c : SocketInf}
    (hn : ¬ b.Member r c) : c.Id ∉ sockets := by
  intro hmem
  obtain ⟨s, hs⟩ := Finmap.mem_iff.mp hmem
  have hid : s.Id = c.Id := hb r sockets hl c.Id s hs
  have hsc : s = c := by
    cases s; cases c; simp_all
  apply hn
  unfold broadcast.Member
  rw [broadcast.room_of_lookup hl, hs, hsc]

/-- C8: in a registry reached from the empty one by `Join` and `Leave`, a
`Leave(r, c)` where room `r` does not exist or `c` is not a member of `r`
returns nil and leaves the whole registry unchanged. -/
theorem Leave_non_member_noop (b : broadcast) (hb : Reachable b) (r : String) (c : SocketInf)
    (hn : r ∉ b.m ∨ ¬ b.Member r c) : b.Leave r c = (b, none) := by
  unfold broadcast.Leave
  cases hl : b.m.lookup r with
  | none => rfl
  | some sockets =>
    have hmem : c.Id ∉ sockets := by
      rcases hn with hn | hn
      · exact absurd (Finmap.mem_of_lookup_eq_some hl) hn
      · exact not_mem_of_not_Member hb.keyedById hl hn
    have hne : sockets ≠ ∅ := hb.noEmptyRoom r sockets hl
    have hcard : Multiset.card sockets.entries ≠ 0 := by
      rw [Ne, sockets_card_eq_zero]
      exact hne
    simp only [sockets_erase_of_not_mem hmem, hcard, if_false]
    rw [finmap_insert_of_lookup hl]

/-- C9: in every registry reached from `newBroadcastDefault` by `Join` and
`Leave`, no room name is mapped to an empty member map; a room entry exists
exactly when the room has at least one member; and when the only member of a
room leaves, the entry of the room is gone. -/
theorem no_empty_room_entry (b : broadcast) (hb : Reachable b) :
    (∀ room : String, b.m.lookup room ≠ some ∅) ∧
      (∀ room : String, room ∈ b.m ↔ ∃ id : String, id ∈ b.room room) ∧
      (∀ (room : String) (c : SocketInf),
        (∀ id : String, id ∈ b.room room → id = c.Id) → room ∉ (b.Leave room c).1.m) := by
  refine ⟨?_, ?_, ?_⟩
  · intro room h
    exact hb.noEmptyRoom room ∅ h rfl
  · intro room
    constructor
    · intro hm
      obtain ⟨sockets, hs⟩ := Finmap.mem_iff.mp hm
      rw [broadcast.room_of_lookup hs]
      by_contra hno
      apply hb.noEmptyRoom room sockets hs
      apply Finmap.ext_lookup
      intro x
      rw [Finmap.lookup_empty, Finmap.lookup_eq_none]
      intro hx
      exact hno ⟨x, hx⟩
    · rintro ⟨id, hid⟩
      rw [← Finmap.lookup_isSome]
      cases hl : b.m.lookup room with
      | none =>
        simp [broadcast.room, hl] at hid
        exact absurd hid (Finmap.not_mem_empty)
      | some sockets => rfl
  · intro room c honly
    rw [← Finmap.lookup_eq_none, broadcast.lookup_Leave]
    simp only [if_true]
    split
    · rfl
    · rename_i hne
      exfalso
      apply hne
      apply Finmap.ext_lookup
      intro x
      rw [Finmap.lookup_empty, Finmap.lookup_eq_none, Finmap.mem_erase]
      rintro ⟨hx, hmem⟩
      exact hx (honly x hmem)

/-- Worked example for C8: `c9` is not in `"room"`; its `Leave` changes nothing. -/
theorem Leave_non_member_noop_witness :
    Reachable roomOfThree ∧
      ("room" ∉ roomOfThree.m ∨ ¬ roomOfThree.Member "room" ⟨"c9"⟩) ∧
      roomOfThree.Leave "room" ⟨"c9"⟩ = (roomOfThree, none) :=
  ⟨reachable_roomOfThree, Or.inr (by unfold broadcast.Member; decide),
    Leave_non_member_noop roomOfThree reachable_roomOfThree "room" ⟨"c9"⟩
      (Or.inr (by unfold broadcast.Member; decide))⟩

theorem reachable_lobbyLeft : Reachable lobbyLeft :=
  .leave _ _ _ (.join _ _ _ .init)

/-- Worked example for C9: after its only member left, `"lobby"` has no entry,
and no room of the registry is mapped to an empty member map. -/
theorem no_empty_room_entry_witness :
    Reachable lobbyLeft ∧ "lobby" ∉ lobbyLeft.m ∧
      (∀ room : String, lobbyLeft.m.lookup room ≠ some ∅) ∧
      (∀ room : String, room ∈ roomOfThree.m ↔ ∃ id : String, id ∈ roomOfThree.room room) :=
  ⟨reachable_lobbyLeft, by decide, (no_empty_room_entry lobbyLeft reachable_lobbyLeft).1,
    (no_empty_room_entry roomOfThree reachable_roomOfThree).2.1⟩

/-! ## Claims about `Send` -/

theorem sendLoop_eq (emit : EmitOutcome) (ignore : Option SocketInf) (event : String)
    (args : List Value) (order : List (Sigma fun _ : String => SocketInf)) (calls : List EmitCall) :
    sendLoop emit ignore event args order calls =
      calls ++ (order.filter (fun x => !skipped ignore x.1)).map
        (fun x => (⟨x.2, event, args, emit x.2 event args⟩ : EmitCall)) := by
  induction order generalizing calls with
  | nil => simp [sendLoop]
  | cons x rest ih =>
    obtain ⟨id, s⟩ := x
    unfold sendLoop
    by_cases h : skipped ignore id
    · simp [h, ih]
    · simp [h, ih]

theorem exists_rangeOrder (sockets : Sockets) : ∃ order, RangeOrder sockets order :=
  Quot.exists_rep sockets.entries

theorem sendCalls_of_order (emit : EmitOutcome) (ignore : Option SocketInf) (event : String)
    (args : List Value) {sockets : Sockets} {order : List (Sigma fun _ : String => SocketInf)}
    (ho : RangeOrder sockets order) :
    sendCalls emit ignore event args sockets =
      ((sendLoop emit ignore event args order [] : List EmitCall) : Multiset EmitCall) := by
  unfold RangeOrder at ho
  unfold sendCalls
  rw [← ho]
  rfl

theorem Send_calls_of_order (b : broadcast) (emit : EmitOutcome) (ignore : Option SocketInf)
    (room event : String) (args : List Value)
    {order : List (Sigma fun _ : String => SocketInf)} (ho : RangeOrder (b.room room) order) :
    (b.Send emit ignore room event args).1 =
      (((order.filter (fun x => !skipped ignore x.1)).map
        (fun x => (⟨x.2, event, args, emit x.2 event args⟩ : EmitCall)) : List EmitCall) :
          Multiset EmitCall) := by
  unfold broadcast.Send
  simp only [sendCalls_of_order emit ignore event args ho, sendLoop_eq, List.nil_append]

theorem Send_sockets_of_order (b : broadcast) (emit : EmitOutcome) (ignore : Option SocketInf)
    (room event : String) (args : List Value)
    {order : List (Sigma fun _ : String => SocketInf)} (ho : RangeOrder (b.room room) order) :
    (b.Send emit ignore room event args).1.map EmitCall.socket =
      (((order.filter (fun x => !skipped ignore x.1)).map Sigma.snd : List SocketInf) :
        Multiset SocketInf) := by
  rw [Send_calls_of_order b emit ignore room event args ho, Multiset.map_coe, List.map_map]
  rfl

theorem mem_order_iff {sockets : Sockets} {order : List (Sigma fun _ : String => SocketInf)}
    (h : RangeOrder sockets order) (id : String) (s : SocketInf) :
    (⟨id, s⟩ : Sigma fun _ : String => SocketInf) ∈ order ↔ sockets.lookup id = some s := by
  unfold RangeOrder at h
  rw [Finmap.lookup_eq_some_iff, ← h]
  exact Multiset.mem_coe.symm

theorem nodup_order {sockets : Sockets} {order : List (Sigma fun _ : String => SocketInf)}
    (h : RangeOrder sockets order) : order.Nodup := by
  unfold RangeOrder at h
  have := sockets.nodup_entries
  rw [← h] at this
  exact Multiset.coe_nodup.mp this

theorem count_Send_socket (b : broadcast) (hb : KeyedById b) (emit : EmitOutcome)
    (ignore : Option SocketInf) (room event : String) (args : List Value) (s : SocketInf) :
    ((b.Send emit ignore room event args).1.map EmitCall.socket).count s =
      if (b.room room).lookup s.Id = some s ∧ skipped ignore s.Id = false then 1 else 0 := by
  obtain ⟨order, ho⟩ := exists_rangeOrder (b.room room)
  rw [Send_sockets_of_order b emit ignore room event args ho, Multiset.coe_count]
  have hkey : ∀ x ∈ order, x.2.Id = x.1 := by
    rintro ⟨id, t⟩ hx
    have hl := (mem_order_iff ho id t).mp hx
    cases hroom : b.m.lookup room with
    | none => simp [broadcast.room, hroom, Finmap.lookup_empty] at hl
    | some sockets =>
      rw [broadcast.room_of_lookup hroom] at hl
      exact hb room sockets hroom id t hl
  have hnd : ((order.filter (fun x => !skipped ignore x.1)).map Sigma.snd).Nodup := by
    apply List.Nodup.map_on
    · rintro ⟨i, t⟩ hx ⟨j, u⟩ hy hsnd
      have h1 := hkey _ (List.mem_of_mem_filter hx)
      have h2 := hkey _ (List.mem_of_mem_filter hy)
      simp only at hsnd h1 h2
      subst hsnd
      rw [← h1, ← h2]
    · exact (nodup_order ho).filter _
  rw [List.count_eq_of_nodup hnd]
  have hiff : s ∈ (order.filter (fun x => !skipped ignore x.1)).map Sigma.snd ↔
      ((b.room room).lookup s.Id = some s ∧ skipped ignore s.Id = false) := by
    rw [List.mem_map]
    constructor
    · rintro ⟨⟨id, t⟩, hx, rfl⟩
      rw [List.mem_filter] at hx
      have hk := hkey _ hx.1
      simp only at hk
      subst hk
      exact ⟨(mem_order_iff ho _ _).mp hx.1, by simpa using hx.2⟩
    · rintro ⟨hl, hs⟩
      refine ⟨⟨s.Id, s⟩, ?_, rfl⟩
      rw [List.mem_filter]
      exact ⟨(mem_order_iff ho _ _).mpr hl, by simp [hs]⟩
  by_cases hm : (b.room room).lookup s.Id = some s ∧ skipped ignore s.Id = false
  · rw [if_pos hm, if_pos (hiff.mpr hm)]
  · rw [if_neg hm, if_neg (fun h => hm (hiff.mp h))]

/-- C1: in a reachable registry, `Send` calls `Emit(event, args)` exactly once
on each socket that is a member of the room and whose id differs from the id
of `ignore`, and on no other socket; with a nil `ignore` it calls `Emit` once
on every member.  The calls are those of the loop run over the entries of
`b.m[room]`, in whatever order `range` visits them. -/
theorem Send_emits_once_to_each_member_but_ignored (b : broadcast) (hb : Reachable b)
    (emit : EmitOutcome) (ignore : Option SocketInf) (room event : String)
    (args : List Value) :
    (∀ call ∈ (b.Send emit ignore room event args).1,
        call.event = event ∧ call.args = args) ∧
      (∀ s : SocketInf, b.Member room s → (∀ ig, ignore = some ig → ig.Id ≠ s.Id) →
        emitCount (b.Send emit ignore room event args).1 s = 1) ∧
      (∀ s : SocketInf, (¬ b.Member room s ∨ ∃ ig, ignore = some ig ∧ ig.Id = s.Id) →
        emitCount (b.Send emit ignore room event args).1 s = 0) ∧
      (ignore = none → ∀ s : SocketInf, b.Member room s →
        emitCount (b.Send emit ignore room event args).1 s = 1) ∧
      (∀ order : List (Sigma fun _ : String => SocketInf), RangeOrder (b.room room) order →
        (b.Send emit ignore room event args).1 =
          ((sendLoop emit ignore event args order [] : List EmitCall) : Multiset EmitCall)) := by
  have hcount := count_Send_socket b hb.keyedById emit ignore room event args
  refine ⟨?_, ?_, ?_, ?_, ?_⟩
  · intro call hcall
    obtain ⟨order, ho⟩ := exists_rangeOrder (b.room room)
    rw [Send_calls_of_order b emit ignore room event args ho, Multiset.mem_coe,
      List.mem_map] at hcall
    obtain ⟨x, _, rfl⟩ := hcall
    exact ⟨rfl, rfl⟩
  · intro s hm hig
    unfold emitCount
    rw [hcount s, if_pos]
    refine ⟨hm, ?_⟩
    cases ignore with
    | none => rfl
    | some ig => simpa [skipped] using hig ig rfl
  · intro s hs
    unfold emitCount
    rw [hcount s, if_neg]
    rintro ⟨hm, hsk⟩
    rcases hs with hs | ⟨ig, rfl, hig⟩
    · exact hs hm
    · simp [skipped, hig] at hsk
  · intro hnil s hm
    unfold emitCount
    rw [hcount s, if_pos]
    exact ⟨hm, by rw [hnil]; rfl⟩
  · intro order ho
    exact sendCalls_of_order emit ignore event args ho

/-- Worked example for C1: with `c1`, `c2`, `c3` in `"room"`,
`Send(c1, "room", "e", args)` calls `Emit` on `c2` and `c3` and not on `c1`;
the same call on a room that does not exist calls `Emit` on nobody. -/
theorem Send_emits_once_to_each_member_but_ignored_witness :
    Reachable roomOfThree ∧
      ((roomOfThree.Send emitFailsOnB (some sockA) "room" "e" ["x"]).1.map EmitCall.socket =
        (([sockB, sockC] : List SocketInf) : Multiset SocketInf)) ∧
      (roomOfThree.Send emitFailsOnB (some sockA) "nosuch" "e" ["x"]).1 = 0 ∧
      emitCount (roomOfThree.Send emitFailsOnB (some sockA) "room" "e" ["x"]).1 sockB = 1 ∧
      emitCount (roomOfThree.Send emitFailsOnB (some sockA) "room" "e" ["x"]).1 sockA = 0 :=
  have h := Send_emits_once_to_each_member_but_ignored roomOfThree reachable_roomOfThree
    emitFailsOnB (some sockA) "room" "e" ["x"]
  ⟨reachable_roomOfThree, by decide, by decide,
    h.2.1 sockB (by unfold broadcast.Member; decide) (by intro ig hig; cases hig; decide),
    h.2.2.1 sockA (Or.inr ⟨sockA, rfl, rfl⟩)⟩

/-- C10: for every registry state, room and behaviour of `Emit` (in particular
one that fails for some members), `Send` returns nil, calls `Emit` on the same
sockets as when no `Emit` fails, and calls `Emit` on every member of the room
that is not excluded; the error of a call is dropped. -/
theorem Send_isolates_emit_failures (b : broadcast) (emit : EmitOutcome)
    (ignore : Option SocketInf) (room event : String) (args : List Value) :
    (b.Send emit ignore room event args).2 = none ∧
      (b.Send emit ignore room event args).1.map EmitCall.socket =
        (b.Send (fun _ _ _ => none) ignore room event args).1.map EmitCall.socket ∧
      (∀ s : SocketInf, b.Member room s → (∀ ig, ignore = some ig → ig.Id ≠ s.Id) →
        (⟨s, event, args, emit s event args⟩ : EmitCall) ∈
          (b.Send emit ignore room event args).1) := by
  obtain ⟨order, ho⟩ := exists_rangeOrder (b.room room)
  refine ⟨rfl, ?_, ?_⟩
  · rw [Send_sockets_of_order b emit ignore room event args ho,
      Send_sockets_of_order b (fun _ _ _ => none) ignore room event args ho]
  · intro s hm hig
    rw [Send_calls_of_order b emit ignore room event args ho, Multiset.mem_coe, List.mem_map]
    refine ⟨⟨s.Id, s⟩, ?_, rfl⟩
    rw [List.mem_filter]
    refine ⟨(mem_order_iff ho _ _).mpr hm, ?_⟩
    cases ignore with
    | none => rfl
    | some ig => simpa [skipped] using hig ig rfl

/-- Worked example for C10: `c1`, `c2`, `c3` are in `"room"` and the `Emit` on
`c2` fails; `Send(nil, ...)` still calls `Emit` on `c1` and `c3` and returns
nil. -/
theorem Send_isolates_emit_failures_witness :
    emitFailsOnB sockB "e" ["x"] = some "connection closed" ∧
      (roomOfThree.Send emitFailsOnB none "room" "e" ["x"]).1 =
        (([⟨sockA, "e", ["x"], none⟩, ⟨sockB, "e", ["x"], some "connection closed"⟩,
          ⟨sockC, "e", ["x"], none⟩] : List EmitCall) : Multiset EmitCall) ∧
      (roomOfThree.Send emitFailsOnB none "room" "e" ["x"]).2 = none :=
  ⟨by decide, by decide,
    (Send_isolates_emit_failures roomOfThree emitFailsOnB none "room" "e" ["x"]).1⟩

/-! ## Claims about `sendId` -/

/-- C4: `sendId(args)` hands to `Encode` one EVENT packet whose `Id` is the
counter value before the increment, whose `NSP` is the namespace of the
connection and whose `Data` is `args`; when `Encode` succeeds it returns that
counter value and nil. -/
theorem sendId_transmits_counter_value (s : Socket) (args : List Value) (enc : Option Error) :
    (s.sendId args enc).2.1 = [.encode ⟨._EVENT, s.id, s.namespace_, args⟩ enc] ∧
      (s.sendId args none).2.2 = (s.id, none) := by
  constructor
  · cases enc <;> rfl
  · rfl

/-- C6 (what the code does): when `Encode` fails inside `sendId`, the error is
dropped; `sendId` returns `-1` together with a nil error. -/
theorem sendId_drops_encode_error (s : Socket) (args : List Value) (err : Error) :
    (s.sendId args (some err)).2.2 = (-1, none) := by
  rfl

theorem sendId_id (s : Socket) (args : List Value) (enc : Option Error) :
    (s.sendId args enc).1.id =
      if wrapInt (s.id + 1) < 0 then 0 else wrapInt (s.id + 1) := by
  cases enc <;> rfl

theorem sendId_id_of_nonneg (s : Socket) (args : List Value) (enc : Option Error)
    (h0 : 0 ≤ s.id) (h1 : s.id ≤ maxInt) :
    (s.sendId args enc).1.id = (s.id + 1) % 2 ^ 63 := by
  rw [sendId_id]
  simp only [wrapInt, maxInt, intBits] at *
  norm_num at *
  split <;> omega

theorem reservedIds_eq (calls : List (List Value × Option Error)) :
    ∀ s : Socket, 0 ≤ s.id → s.id ≤ maxInt →
      reservedIds s calls =
        (List.range calls.length).map (fun i : Nat => (s.id + (i : Int)) % 2 ^ 63) := by
  induction calls with
  | nil => intro s _ _; rfl
  | cons c rest ih =>
    intro s h0 h1
    obtain ⟨args, enc⟩ := c
    have hid := sendId_id_of_nonneg s args enc h0 h1
    have hs0 : 0 ≤ (s.sendId args enc).1.id := by
      rw [hid]; exact Int.emod_nonneg _ (by norm_num)
    have hs1 : (s.sendId args enc).1.id ≤ maxInt := by
      rw [hid]
      have : (s.id + 1) % 2 ^ 63 < 2 ^ 63 := Int.emod_lt_of_pos _ (by norm_num)
      simp only [maxInt, intBits]
      norm_num at *
      omega
    simp only [reservedIds, List.length_cons, List.range_succ_eq_map, List.map_cons,
      List.map_map]
    rw [ih _ hs0 hs1, hid]
    congr 1
    · simp only [maxInt, intBits] at h1
      norm_num at *
      omega
    · apply List.map_congr_left
      intro i _
      simp only [Function.comp, Nat.cast_succ]
      rw [Int.emod_add_emod]
      congr 1
      ring

theorem reservedIds_nodup_of_nonneg (s : Socket) (calls : List (List Value × Option Error))
    (h0 : 0 ≤ s.id) (h1 : s.id ≤ maxInt) (hk : calls.length < 2 ^ (intBits - 1)) :
    (reservedIds s calls).Nodup := by
  rw [reservedIds_eq calls s h0 h1]
  apply List.Nodup.map_on
  · intro i hi j hj hij
    rw [List.mem_range] at hi hj
    simp only [intBits] at hk
    norm_num at hk
    simp only at hij
    omega
  · exact List.nodup_range _

theorem sendId_id_of_neg (s : Socket) (args : List Value) (enc : Option Error)
    (hmin : minInt ≤ s.id) (hneg : s.id < 0) : (s.sendId args enc).1.id = 0 := by
  rw [sendId_id]
  simp only [wrapInt, minInt, intBits] at *
  norm_num at *
  intro h
  omega

theorem reservedIds_nodup (s : Socket) (calls : List (List Value × Option Error))
    (hmin : minInt ≤ s.id) (h1 : s.id ≤ maxInt) (hk : calls.length < 2 ^ (intBits - 1)) :
    (reservedIds s calls).Nodup := by
  by_cases h0 : 0 ≤ s.id
  · exact reservedIds_nodup_of_nonneg s calls h0 h1 hk
  · cases calls with
    | nil => simp [reservedIds]
    | cons c rest =>
      obtain ⟨args, enc⟩ := c
      have hid := sendId_id_of_neg s args enc hmin (not_le.mp h0)
      have hs0 : 0 ≤ (s.sendId args enc).1.id := by rw [hid]
      have hs1 : (s.sendId args enc).1.id ≤ maxInt := by rw [hid]; decide
      have hk' : rest.length < 2 ^ (intBits - 1) := by
        simp only [List.length_cons] at hk
        omega
      simp only [reservedIds, List.nodup_cons]
      refine ⟨?_, reservedIds_nodup_of_nonneg _ rest hs0 hs1 hk'⟩
      rw [reservedIds_eq rest _ hs0 hs1]
      intro hmem
      obtain ⟨i, _, hi⟩ := List.mem_map.mp hmem
      have hnn : (0 : Int) ≤ ((s.sendId args enc).1.id + (i : Int)) % 2 ^ 63 :=
        Int.emod_nonneg _ (by norm_num)
      omega

theorem sendIdSeq_getElem (calls : List (List Value × Option Error)) :
    ∀ (s : Socket) (i : Nat) (args : List Value) (r : Int × Option Error),
      calls[i]? = some (args, none) → (sendIdSeq s calls)[i]? = some r →
        (reservedIds s calls)[i]? = some r.1 ∧ r.2 = none := by
  induction calls with
  | nil => intro s i args r h; simp at h
  | cons c rest ih =>
    intro s i args r hc hr
    obtain ⟨a, enc⟩ := c
    cases i with
    | zero =>
      simp only [List.getElem?_cons_zero, Option.some.injEq, Prod.mk.injEq] at hc
      obtain ⟨rfl, rfl⟩ := hc
      simp only [sendIdSeq, List.getElem?_cons_zero, Option.some.injEq] at hr
      subst hr
      exact ⟨by simp [reservedIds, Socket.sendId], rfl⟩
    | succ n =>
      simp only [List.getElem?_cons_succ] at hc
      simp only [sendIdSeq, List.getElem?_cons_succ] at hr
      simpa [reservedIds] using ih _ n args r hc hr

theorem sendIdSeq_getElem_cases (calls : List (List Value × Option Error)) :
    ∀ (s : Socket) (i : Nat) (r : Int × Option Error),
      (sendIdSeq s calls)[i]? = some r →
        r.1 = -1 ∨ (reservedIds s calls)[i]? = some r.1 := by
  induction calls with
  | nil => intro s i r h; simp [sendIdSeq] at h
  | cons c rest ih =>
    intro s i r hr
    obtain ⟨a, enc⟩ := c
    cases i with
    | zero =>
      simp only [sendIdSeq, List.getElem?_cons_zero, Option.some.injEq] at hr
      subst hr
      cases enc with
      | none => right; simp [reservedIds, Socket.sendId]
      | some e => left; rfl
    | succ n =>
      simp only [sendIdSeq, List.getElem?_cons_succ] at hr
      simpa [reservedIds] using ih _ n r hr

/-- C5: on one connection (its counter an `int`), for fewer calls of `sendId`
than there are ids, taken in the order in which they hold the connection
mutex, the ids returned are pairwise distinct: any two calls that return an id
(a value `>= 0`; `-1` stands for no id) return different ones.  The ids
stamped on the packets are pairwise distinct too, and so are the ids returned
by any two calls whose transmission succeeds. -/
theorem sendId_ids_pairwise_distinct (s : Socket) (calls : List (List Value × Option Error))
    (hmin : minInt ≤ s.id) (hmax : s.id ≤ maxInt) (hk : calls.length < 2 ^ (intBits - 1)) :
    (∀ (i j : Nat) (ri rj : Int × Option Error), i ≠ j →
        (sendIdSeq s calls)[i]? = some ri → (sendIdSeq s calls)[j]? = some rj →
        0 ≤ ri.1 → 0 ≤ rj.1 → ri.1 ≠ rj.1) ∧
      (reservedIds s calls).Nodup ∧
      ∀ (i j : Nat) (argsi argsj : List Value) (ri rj : Int × Option Error), i ≠ j →
        calls[i]? = some (argsi, none) → calls[j]? = some (argsj, none) →
        (sendIdSeq s calls)[i]? = some ri → (sendIdSeq s calls)[j]? = some rj →
        ri.1 ≠ rj.1 := by
  have hnd := reservedIds_nodup s calls hmin hmax hk
  have hinj : ∀ (i j : Nat) (a : Int), i ≠ j → (reservedIds s calls)[i]? = some a →
      (reservedIds s calls)[j]? = some a → False := by
    intro i j a hij hi hj
    obtain ⟨hi', hie⟩ := List.getElem?_eq_some_iff.mp hi
    obtain ⟨hj', hje⟩ := List.getElem?_eq_some_iff.mp hj
    exact hij ((List.Nodup.getElem_inj_iff hnd).mp (hie.trans hje.symm))
  refine ⟨?_, hnd, ?_⟩
  · intro i j ri rj hij hri hrj h0i h0j heq
    rcases sendIdSeq_getElem_cases calls s i ri hri with hi | hi
    · omega
    · rcases sendIdSeq_getElem_cases calls s j rj hrj with hj | hj
      · omega
      · rw [heq] at hi
        exact hinj i j rj.1 hij hi hj
  · intro i j argsi argsj ri rj hij hci hcj hri hrj heq
    have hi := (sendIdSeq_getElem calls s i argsi ri hci hri).1
    have hj := (sendIdSeq_getElem calls s j argsj rj hcj hrj).1
    rw [heq] at hi
    exact hinj i j rj.1 hij hi hj

/-- Worked example for C5: three calls on a counter one below the largest id;
the second transmission fails and returns `-1`, no id.  The stamped ids wrap
around to 0 and are distinct, and the two ids returned are distinct. -/
theorem sendId_ids_pairwise_distinct_witness :
    minInt ≤ (⟨"", maxInt - 1⟩ : Socket).id ∧
      reservedIds ⟨"", maxInt - 1⟩ [([], none), ([], some "w"), ([], none)] =
        [maxInt - 1, maxInt, 0] ∧
      sendIdSeq ⟨"", maxInt - 1⟩ [([], none), ([], some "w"), ([], none)] =
        [(maxInt - 1, none), (-1, none), (0, none)] ∧
      ((maxInt - 1, none) : Int × Option Error).1 ≠ ((0, none) : Int × Option Error).1 :=
  ⟨by decide, by decide, by decide,
    (sendId_ids_pairwise_distinct ⟨"", maxInt - 1⟩ [([], none), ([], some "w"), ([], none)]
      (by decide) (by decide) (by decide)).1 0 2 (maxInt - 1, none) (0, none) (by decide)
      (by decide) (by decide) (by decide) (by decide)⟩

/-! ## Claims about `Loop` -/

theorem iteration_no_cleanup (s : Socket) (st : Step) :
    ∀ e ∈ (iteration s st).2.1, e ≠ .leaveAll ∧ ∀ p, e ≠ .onPacket false p := by
  intro e he
  unfold iteration at he
  split at he
  · simp at he; subst he; simp
  · split at he
    · simp at he; rcases he with rfl | rfl <;> simp
    · split at he
      · simp [Socket.sendConnect] at he; rcases he with rfl | rfl | rfl <;> simp
      · split at he
        · split at he
          · simp at he; rcases he with rfl | rfl | rfl <;> simp
          · simp at he; rcases he with rfl | rfl | rfl <;> simp
        · simp at he; rcases he with rfl | rfl <;> simp
      · split at he
        · split at he
          · simp at he; rcases he with rfl | rfl | rfl <;> simp
          · simp at he; rcases he with rfl | rfl | rfl <;> simp
        · simp at he; rcases he with rfl | rfl <;> simp
      · simp at he; rcases he with rfl | rfl <;> simp
      · simp at he; rcases he with rfl | rfl <;> simp

theorem forLoop_cons (s : Socket) (st : Step) (rest : List Step) :
    forLoop s (st :: rest) =
      match (iteration s st).2.2 with
      | some r => ((iteration s st).1, (iteration s st).2.1, .returned r)
      | none =>
        ((forLoop (iteration s st).1 rest).1,
          (iteration s st).2.1 ++ (forLoop (iteration s st).1 rest).2.1,
          (forLoop (iteration s st).1 rest).2.2) := by
  rw [forLoop]
  rcases h : iteration s st with ⟨s1, calls, _ | r⟩ <;> simp

theorem forLoop_no_cleanup (steps : List Step) :
    ∀ (s : Socket), ∀ e ∈ (forLoop s steps).2.1, e ≠ .leaveAll ∧ ∀ p, e ≠ .onPacket false p := by
  induction steps with
  | nil => intro s e he; simp [forLoop] at he
  | cons st rest ih =>
    intro s e he
    rw [forLoop_cons] at he
    split at he
    · exact iteration_no_cleanup s st e he
    · simp only [List.mem_append] at he
      rcases he with he | he
      · exact iteration_no_cleanup s st e he
      · exact ih _ e he

theorem iteration_returns_of_endsLoop (s : Socket) (st : Step) (h : st.endsLoop) :
    ∃ r, (iteration s st).2.2 = some r := by
  unfold iteration
  rcases h with ⟨err, h⟩ | ⟨p, h, hd⟩ | ⟨p, h, hd⟩
  · rw [h]; exact ⟨_, rfl⟩
  · rw [h]
    rcases hdisp : st.dispatch with ⟨ret, _ | err⟩
    · rw [hdisp] at hd; exact absurd rfl hd
    · exact ⟨_, rfl⟩
  · rw [h]
    rcases hdisp : st.dispatch with ⟨ret, _ | err⟩
    · simp only [hd]; exact ⟨_, rfl⟩
    · exact ⟨_, rfl⟩

theorem forLoop_returns_of_endsLoop (steps : List Step) :
    ∀ (s : Socket), (∃ st ∈ steps, st.endsLoop) → ∃ r, (forLoop s steps).2.2 = .returned r := by
  induction steps with
  | nil => intro s h; simp at h
  | cons st rest ih =>
    intro s h
    rw [forLoop_cons]
    rcases hit : (iteration s st).2.2 with _ | r
    · simp only
      apply ih
      obtain ⟨st', hmem, hends⟩ := h
      rcases List.mem_cons.mp hmem with rfl | hmem
      · obtain ⟨r, hr⟩ := iteration_returns_of_endsLoop s st' hends
        rw [hr] at hit
        cases hit
      · exact ⟨st', hmem, hends⟩
    · exact ⟨r, rfl⟩

theorem loopBody_no_cleanup (s : Socket) (env : LoopEnv) :
    ∀ e ∈ (loopBody s env).2.1, e ≠ .leaveAll ∧ e ≠ .onPacket false disconnectPacket := by
  intro e he
  unfold loopBody at he
  split at he
  · simp at he; subst he; simp
  · simp only [List.cons_append, List.nil_append, List.mem_cons] at he
    rcases he with rfl | rfl | he
    · simp
    · simp [disconnectPacket, connectPacket]
    · exact ⟨(forLoop_no_cleanup _ _ e he).1, (forLoop_no_cleanup _ _ e he).2 _⟩

theorem Loop_eq (s : Socket) (env : LoopEnv) :
    s.Loop env =
      match (loopBody s env).2.2 with
      | .returned r => ((loopBody s env).1, (loopBody s env).2.1 ++ deferred, .returned r)
      | .blocked => ((loopBody s env).1, (loopBody s env).2.1, .blocked) := by
  unfold Socket.Loop
  rcases h : loopBody s env with ⟨s1, calls, _ | r⟩ <;> simp

/-- C2: whenever a run of `Loop` returns (whichever condition ends it), the
last two calls it made are `LeaveAll` and then the dispatch of the synthetic
DISCONNECT packet (`Id = -1`, nil decoder), and each of the two occurs exactly
once in the whole run.  A run whose inputs contain a decode error, a dispatch
error or a decoded DISCONNECT does return. -/
theorem Loop_cleanup_exactly_once (s : Socket) (env : LoopEnv) :
    ((∃ st ∈ env.steps, st.endsLoop) → ∃ r, (s.Loop env).2.2 = .returned r) ∧
      (∀ r, (s.Loop env).2.2 = .returned r →
        (∃ body, (s.Loop env).2.1 = body ++ [.leaveAll, .onPacket false disconnectPacket]) ∧
          (s.Loop env).2.1.count .leaveAll = 1 ∧
          (s.Loop env).2.1.count (.onPacket false disconnectPacket) = 1) := by
  constructor
  · intro h
    rw [Loop_eq]
    have hbody : ∃ r, (loopBody s env).2.2 = .returned r := by
      unfold loopBody
      split
      · exact ⟨_, rfl⟩
      · exact forLoop_returns_of_endsLoop env.steps s h
    obtain ⟨r, hr⟩ := hbody
    rw [hr]
    exact ⟨r, rfl⟩
  · intro r hr
    rw [Loop_eq] at hr ⊢
    rcases hb : (loopBody s env).2.2 with _ | r'
    · rw [hb] at hr; cases hr
    · have hno := loopBody_no_cleanup s env
      have h1 : (loopBody s env).2.1.count .leaveAll = 0 :=
        List.count_eq_zero.mpr (fun hmem => (hno _ hmem).1 rfl)
      have h2 : (loopBody s env).2.1.count (.onPacket false disconnectPacket) = 0 :=
        List.count_eq_zero.mpr (fun hmem => (hno _ hmem).2 rfl)
      refine ⟨⟨(loopBody s env).2.1, rfl⟩, ?_, ?_⟩
      · simp only [List.count_append, h1, deferred]
        decide
      · simp only [List.count_append, h2, deferred]
        decide

/-- Worked example for C2: the peer sends a DISCONNECT packet.  The run
returns nil; its calls end with `LeaveAll` and the synthetic dispatch. -/
theorem Loop_cleanup_exactly_once_witness :
    (Socket.Loop NewSocket ⟨none, [⟨.ok ⟨._DISCONNECT, -1, "", []⟩, ([], none), none⟩]⟩).2.2 =
        .returned none ∧
      (Socket.Loop NewSocket ⟨none, [⟨.ok ⟨._DISCONNECT, -1, "", []⟩, ([], none), none⟩]⟩).2.1 =
        [.encode connectPacket none, .onPacket false connectPacket,
          .decodeOk ⟨._DISCONNECT, -1, "", []⟩, .onPacket true ⟨._DISCONNECT, -1, "", []⟩,
          .leaveAll, .onPacket false disconnectPacket] ∧
      (Socket.Loop NewSocket ⟨none, [⟨.ok ⟨._DISCONNECT, -1, "", []⟩, ([], none), none⟩]⟩).2.1.count
        .leaveAll = 1 :=
  ⟨rfl, rfl,
    ((Loop_cleanup_exactly_once NewSocket
      ⟨none, [⟨.ok ⟨._DISCONNECT, -1, "", []⟩, ([], none), none⟩]⟩).2 none rfl).2.1⟩

theorem forLoop_append (pre : List Step) :
    ∀ (s : Socket) (post : List Step), (forLoop s pre).2.2 = .blocked →
      forLoop s (pre ++ post) =
        ((forLoop (forLoop s pre).1 post).1,
          (forLoop s pre).2.1 ++ (forLoop (forLoop s pre).1 post).2.1,
          (forLoop (forLoop s pre).1 post).2.2) := by
  induction pre with
  | nil => intro s post _; simp [forLoop]
  | cons st rest ih =>
    intro s post h
    rw [forLoop_cons] at h
    rw [List.cons_append, forLoop_cons, forLoop_cons]
    rcases hit : (iteration s st).2.2 with _ | r
    · rw [hit] at h
      simp only at h
      simp only [ih _ post h, List.append_assoc]
    · rw [hit] at h
      cases h

theorem iteration_head (s : Socket) (st : Step) :
    ∃ e rest, (iteration s st).2.1 = e :: rest ∧ ∀ q err, e ≠ .encode q err := by
  unfold iteration
  split
  · exact ⟨_, _, rfl, by simp⟩
  · split
    · exact ⟨_, _, rfl, by simp⟩
    · split
      · exact ⟨_, _, rfl, by simp⟩
      · split
        · split <;> exact ⟨_, _, rfl, by simp⟩
        · exact ⟨_, _, rfl, by simp⟩
      · split
        · split <;> exact ⟨_, _, rfl, by simp⟩
        · exact ⟨_, _, rfl, by simp⟩
      · exact ⟨_, _, rfl, by simp⟩
      · exact ⟨_, _, rfl, by simp⟩

theorem forLoop_head (s : Socket) (steps : List Step) (q : packet) (err : Option Error) :
    (forLoop s steps).2.1.head? ≠ some (.encode q err) := by
  cases steps with
  | nil => simp [forLoop]
  | cons st rest =>
    obtain ⟨e, tl, he, hne⟩ := iteration_head s st
    rw [forLoop_cons]
    split
    · simp only [he, List.head?_cons, ne_eq, Option.some.injEq]
      exact hne q err
    · simp only [he, List.cons_append, List.head?_cons, ne_eq, Option.some.injEq]
      exact hne q err

theorem iteration_event_with_id (s : Socket) (st : Step) (p : packet) (ret : List Value)
    (hdec : st.decode = .ok p) (htype : p.Type_ = ._EVENT ∨ p.Type_ = ._BINARY_EVENT)
    (hid : 0 ≤ p.Id) (hdisp : st.dispatch = (ret, none)) :
    iteration s st =
      (s, [.decodeOk p, .onPacket true p, .encode ⟨._ACK, p.Id, s.namespace_, ret⟩ st.encode],
        st.encode.map some) := by
  unfold iteration
  rw [hdec, hdisp]
  rcases htype with h | h
  · simp only [h, ge_iff_le, hid, if_true]
    cases st.encode <;> rfl
  · simp only [h, ge_iff_le, hid, if_true]
    cases st.encode <;> rfl

/-- C3 as stated fails: `Loop` decodes an EVENT packet with `Id = 0` whose
dispatch returns an error; the run ends without any ACK being handed to
`Encode`. -/
theorem Loop_no_ack_when_dispatch_fails :
    (Socket.Loop NewSocket
        ⟨none, [⟨.ok ⟨._EVENT, 0, "", ["msg"]⟩, ([], some "handler failed"), none⟩]⟩).2.1 =
      [.encode connectPacket none, .onPacket false connectPacket,
        .decodeOk ⟨._EVENT, 0, "", ["msg"]⟩, .onPacket true ⟨._EVENT, 0, "", ["msg"]⟩,
        .leaveAll, .onPacket false disconnectPacket] ∧
      ∀ (q : packet) (err : Option Error), q.Type_ = ._ACK →
        Event.encode q err ∉ (Socket.Loop NewSocket
          ⟨none, [⟨.ok ⟨._EVENT, 0, "", ["msg"]⟩, ([], some "handler failed"), none⟩]⟩).2.1 := by
  refine ⟨rfl, ?_⟩
  intro q err hq hmem
  have h : (Socket.Loop NewSocket
        ⟨none, [⟨.ok ⟨._EVENT, 0, "", ["msg"]⟩, ([], some "handler failed"), none⟩]⟩).2.1 =
      [.encode connectPacket none, .onPacket false connectPacket,
        .decodeOk ⟨._EVENT, 0, "", ["msg"]⟩, .onPacket true ⟨._EVENT, 0, "", ["msg"]⟩,
        .leaveAll, .onPacket false disconnectPacket] := rfl
  rw [h] at hmem
  simp only [List.mem_cons, Event.encode.injEq, List.mem_singleton, reduceCtorEq, or_false,
    false_or, List.not_mem_nil] at hmem
  rw [hmem.1] at hq
  cases hq

/-- C3, amended: when `Loop` reaches an iteration that decodes an EVENT or
BINARY_EVENT packet `p` with `Id = n >= 0` and the dispatch of `p` returns no
error, the calls of the run continue, right after the dispatch of `p`, with
exactly one `Encode` of an ACK packet carrying `Id = n`, the namespace the
connection has at that moment and the dispatch result as `Data` (also when the
result is empty); the call after it is not another `Encode`. -/
theorem Loop_acks_event_with_id (s : Socket) (pre : List Step) (st : Step) (rest : List Step)
    (p : packet) (ret : List Value) (hpre : (forLoop s pre).2.2 = .blocked)
    (hdec : st.decode = .ok p) (htype : p.Type_ = ._EVENT ∨ p.Type_ = ._BINARY_EVENT)
    (hid : 0 ≤ p.Id) (hdisp : st.dispatch = (ret, none)) :
    ∃ tail : List Event,
      (s.Loop ⟨none, pre ++ st :: rest⟩).2.1 =
        [.encode connectPacket none, .onPacket false connectPacket] ++ (forLoop s pre).2.1 ++
          [.decodeOk p, .onPacket true p,
            .encode ⟨._ACK, p.Id, (forLoop s pre).1.namespace_, ret⟩ st.encode] ++ tail ∧
        ∀ (q : packet) (err : Option Error), tail.head? ≠ some (.encode q err) := by
  have hit := iteration_event_with_id (forLoop s pre).1 st p ret hdec htype hid hdisp
  have hfor := forLoop_append pre s (st :: rest) hpre
  rw [forLoop_cons, hit] at hfor
  rw [Loop_eq]
  unfold loopBody
  simp only [hfor]
  cases henc : st.encode with
  | some e =>
    refine ⟨deferred, ?_, ?_⟩
    · simp [connectPacket]
    · intro q err
      simp [deferred]
  | none =>
    simp only [Option.map_none']
    rcases hout : (forLoop (forLoop s pre).1 rest).2.2 with _ | r
    · refine ⟨(forLoop (forLoop s pre).1 rest).2.1, ?_, ?_⟩
      · simp [connectPacket]
      · intro q err
        exact forLoop_head _ _ q err
    · refine ⟨(forLoop (forLoop s pre).1 rest).2.1 ++ deferred, ?_, ?_⟩
      · simp [connectPacket]
      · intro q err
        have := forLoop_head (forLoop s pre).1 rest q err
        cases hl : (forLoop (forLoop s pre).1 rest).2.1 with
        | nil => simp [deferred]
        | cons a l =>
          rw [hl] at this
          simpa using this

/-- Worked example for C3: after a CONNECT for `/chat`, an EVENT with `Id = 7`
whose handler returns an empty result is answered by one ACK with `Id = 7`,
`NSP = "/chat"` and empty `Data`. -/
theorem Loop_acks_event_with_id_witness :
    (forLoop NewSocket [stepConnectChat]).2.2 = .blocked ∧
      (Socket.Loop NewSocket ⟨none, [stepConnectChat, stepEventSeven]⟩).2.1 =
        [.encode connectPacket none, .onPacket false connectPacket,
          .decodeOk ⟨._CONNECT, -1, "/chat", []⟩, .onPacket true ⟨._CONNECT, -1, "/chat", []⟩,
          .encode ⟨._CONNECT, -1, "/chat", []⟩ none,
          .decodeOk ⟨._EVENT, 7, "/chat", ["ping"]⟩, .onPacket true ⟨._EVENT, 7, "/chat", ["ping"]⟩,
          .encode ⟨._ACK, 7, "/chat", []⟩ none] ∧
      ∃ tail : List Event,
        (Socket.Loop NewSocket ⟨none, [stepConnectChat] ++ stepEventSeven :: []⟩).2.1 =
          [.encode connectPacket none, .onPacket false connectPacket] ++
            (forLoop NewSocket [stepConnectChat]).2.1 ++
            [.decodeOk ⟨._EVENT, 7, "/chat", ["ping"]⟩,
              .onPacket true ⟨._EVENT, 7, "/chat", ["ping"]⟩,
              .encode ⟨._ACK, 7, (forLoop NewSocket [stepConnectChat]).1.namespace_, []⟩
                stepEventSeven.encode] ++ tail ∧
          ∀ (q : packet) (err : Option Error), tail.head? ≠ some (.encode q err) :=
  ⟨rfl, rfl,
    Loop_acks_event_with_id NewSocket [stepConnectChat] stepEventSeven []
      ⟨._EVENT, 7, "/chat", ["ping"]⟩ [] rfl rfl (Or.inl rfl) (by decide) rfl⟩

/-! ## Frame of `Join` and `Leave` -/

theorem sockets_keys_insert (s : Sockets) (id : String) (c : SocketInf) :
    (s.insert id c).keys = insert id s.keys := by
  ext x
  rw [Finmap.mem_keys, Finmap.mem_insert, Finset.mem_insert, Finmap.mem_keys]

theorem broadcast.room_Leave (b : broadcast) (room : String) (socket : SocketInf) :
    (b.Leave room socket).1.room room = (b.room room).erase socket.Id := by
  unfold broadcast.room
  rw [broadcast.lookup_Leave]
  simp only [if_true]
  cases hl : b.m.lookup room with
  | none =>
    have he : (∅ : Sockets).erase socket.Id = ∅ :=
      sockets_erase_of_not_mem (Finmap.not_mem_empty)
    simp [broadcast.room, hl, he]
  | some sockets =>
    simp only [broadcast.room, hl, Option.getD_some, Option.map_some']
    split
    · rename_i he
      simp [he]
    · rfl

/-- C11: for every registry state, room `r` and socket `c`: after
`Join(r, c)` the member ids of `r` are the previous ones plus `c.Id()`; after
`Leave(r, c)` they are the previous ones minus `c.Id()`; and both calls leave
the entry of every other room as it was. -/
theorem Join_Leave_frame (b : broadcast) (r : String) (c : SocketInf) :
    (b.Join r c).1.memberIds r = insert c.Id (b.memberIds r) ∧
      (b.Leave r c).1.memberIds r = (b.memberIds r).erase c.Id ∧
      (∀ r' : String, r' ≠ r →
        (b.Join r c).1.m.lookup r' = b.m.lookup r' ∧
          (b.Leave r c).1.m.lookup r' = b.m.lookup r') := by
  refine ⟨?_, ?_, ?_⟩
  · unfold broadcast.memberIds
    rw [broadcast.room_Join, sockets_keys_insert]
  · unfold broadcast.memberIds
    rw [broadcast.room_Leave, Finmap.keys_erase]
  · intro r' hr
    rw [broadcast.lookup_Join, broadcast.lookup_Leave]
    simp [hr]

/-- Worked example for C11: `c1` and `c2` join `"lobby"`; `Send(nil, "lobby",
"chat", "hi")` calls `Emit` on both; after `c1` left, the member ids are those
of before minus `c1`, and `Send(nil, "lobby", "chat", "bye")` calls `Emit` on
`c2` only. -/
theorem Join_Leave_frame_witness :
    (lobbyOfTwo.Send (fun _ _ _ => none) none "lobby" "chat" ["hi"]).1.map EmitCall.socket =
        (([sockA, sockB] : List SocketInf) : Multiset SocketInf) ∧
      (lobbyOfTwo.Leave "lobby" sockA).1.memberIds "lobby" =
        (lobbyOfTwo.memberIds "lobby").erase sockA.Id ∧
      ((lobbyOfTwo.Leave "lobby" sockA).1.Send (fun _ _ _ => none) none "lobby" "chat"
          ["bye"]).1.map EmitCall.socket = (([sockB] : List SocketInf) : Multiset SocketInf) :=
  ⟨by decide, (Join_Leave_frame lobbyOfTwo "lobby" sockA).2.1, by decide⟩

/-! ## The counter of `sendId`, and `Emit` -/

/-- C19: from a counter value `c` with `0 <= c <= maxInt`, whatever the outcome
of the transmission, `sendId` leaves the counter at `c + 1` when `c` is below
the largest `int` and at `0` when `c` is the largest `int` (the wrapped
increment is negative there); the counter is not negative afterwards. -/
theorem sendId_advances_counter (s : Socket) (args : List Value) (enc : Option Error)
    (h0 : 0 ≤ s.id) (h1 : s.id ≤ maxInt) :
    (s.sendId args enc).1.id = (if s.id < maxInt then s.id + 1 else 0) ∧
      0 ≤ (s.sendId args enc).1.id ∧ wrapInt (maxInt + 1) < 0 := by
  have hid : (s.sendId args enc).1.id = (if s.id < maxInt then s.id + 1 else 0) := by
    rw [sendId_id]
    simp only [wrapInt, maxInt, intBits] at *
    norm_num at *
    split <;> split <;> omega
  refine ⟨hid, ?_, by decide⟩
  rw [hid]
  split <;> omega

/-- Worked example for C19: at the largest `int` a failed transmission leaves
the counter at `0`; one below it, at the largest `int`. -/
theorem sendId_advances_counter_witness :
    (0 : Int) ≤ (⟨"", maxInt⟩ : Socket).id ∧
      ((⟨"", maxInt⟩ : Socket).sendId [] (some "write failed")).1.id = 0 ∧
      ((⟨"", maxInt - 1⟩ : Socket).sendId [] (some "write failed")).1.id = maxInt ∧
      (0 : Int) ≤ ((⟨"", maxInt⟩ : Socket).sendId [] (some "write failed")).1.id :=
  ⟨by decide, by decide, by decide,
    (sendId_advances_counter ⟨"", maxInt⟩ [] (some "write failed") (by decide) (by decide)).2.1⟩

/-- C17: `Socket.Emit` first calls the handler's `Emit`; it calls `Close` on
the transport, after that call, exactly when the event is `"disconnect"` and
the handler's `Emit` returned nil; it returns the handler's error when there
is one (without closing) and nil otherwise. -/
theorem Emit_closes_after_disconnect_sent (s : Socket) (handler : Option Error)
    (event : String) (args : List Value) :
    (s.Emit handler event args).1 =
        .handlerEmit event args handler ::
          (if event = "disconnect" ∧ handler = none then [.close] else []) ∧
      (s.Emit handler event args).2 = handler ∧
      (Event.close ∈ (s.Emit handler event args).1 ↔
        event = "disconnect" ∧ handler = none) := by
  unfold Socket.Emit
  cases handler with
  | some err => simp
  | none =>
    by_cases h : event = "disconnect"
    · simp [h]
    · simp [h]

/-- Worked example for C17: a sent `"disconnect"` closes the transport, a
failed one and a sent `"chat"` do not. -/
theorem Emit_closes_after_disconnect_sent_witness :
    (NewSocket.Emit none "disconnect" []).1 = [.handlerEmit "disconnect" [] none, .close] ∧
      NewSocket.Emit (some "closed") "disconnect" [] =
        ([.handlerEmit "disconnect" [] (some "closed")], some "closed") ∧
      NewSocket.Emit none "chat" ["hi"] = ([.handlerEmit "chat" ["hi"] none], none) ∧
      (Event.close ∈ (NewSocket.Emit none "disconnect" []).1 ↔
        "disconnect" = "disconnect" ∧ (none : Option Error) = none) :=
  ⟨by decide, by decide, by decide,
    (Emit_closes_after_disconnect_sent NewSocket none "disconnect" []).2.2⟩

/-! ## The iterations of `Loop`, case by case -/

theorem iteration_cases (s : Socket) (st : Step) :
    (∃ e, st.decode = .error e ∧ iteration s st = (s, [.decodeErr e], some (some e))) ∨
    (∃ p ret e, st.decode = .ok p ∧ st.dispatch = (ret, some e) ∧
      iteration s st = (s, [.decodeOk p, .onPacket true p], some (some e))) ∨
    (∃ p ret, st.decode = .ok p ∧ st.dispatch = (ret, none) ∧ p.Type_ = ._CONNECT ∧
      iteration s st = ({ s with namespace_ := p.NSP },
        [.decodeOk p, .onPacket true p, .encode ⟨._CONNECT, -1, p.NSP, []⟩ st.encode], none)) ∨
    (∃ p ret, st.decode = .ok p ∧ st.dispatch = (ret, none) ∧
      (p.Type_ = ._EVENT ∨ p.Type_ = ._BINARY_EVENT) ∧ 0 ≤ p.Id ∧
      iteration s st = (s, [.decodeOk p, .onPacket true p,
        .encode ⟨._ACK, p.Id, s.namespace_, ret⟩ st.encode], st.encode.map some)) ∨
    (∃ p ret, st.decode = .ok p ∧ st.dispatch = (ret, none) ∧
      (p.Type_ = ._EVENT ∨ p.Type_ = ._BINARY_EVENT) ∧ p.Id < 0 ∧
      iteration s st = (s, [.decodeOk p, .onPacket true p], none)) ∨
    (∃ p ret, st.decode = .ok p ∧ st.dispatch = (ret, none) ∧ p.Type_ = ._DISCONNECT ∧
      iteration s st = (s, [.decodeOk p, .onPacket true p], some none)) ∨
    (∃ p ret, st.decode = .ok p ∧ st.dispatch = (ret, none) ∧ p.Type_ = ._ACK ∧
      iteration s st = (s, [.decodeOk p, .onPacket true p], none)) := by
  rcases hdec : st.decode with e | p
  · left
    exact ⟨e, rfl, by unfold iteration; rw [hdec]⟩
  · right
    rcases hdisp : st.dispatch with ⟨ret, _ | e⟩
    · right
      rcases htype : p.Type_ with _ | _ | _ | _ | _
      · left
        exact ⟨p, ret, rfl, rfl, htype, by
          unfold iteration; rw [hdec, hdisp]; simp only [htype]; rfl⟩
      · right; right; right; left
        exact ⟨p, ret, rfl, rfl, htype, by
          unfold iteration; rw [hdec, hdisp]; simp only [htype]⟩
      · right
        by_cases hid : 0 ≤ p.Id
        · left
          refine ⟨p, ret, rfl, rfl, Or.inl htype, hid, ?_⟩
          exact iteration_event_with_id s st p ret hdec (Or.inl htype) hid hdisp
        · right; left
          refine ⟨p, ret, rfl, rfl, Or.inl htype, not_le.mp hid, ?_⟩
          unfold iteration; rw [hdec, hdisp]; simp only [htype, ge_iff_le, hid, if_false]
      · right; right; right; right
        exact ⟨p, ret, rfl, rfl, htype, by
          unfold iteration; rw [hdec, hdisp]; simp only [htype]⟩
      · right
        by_cases hid : 0 ≤ p.Id
        · left
          refine ⟨p, ret, rfl, rfl, Or.inr htype, hid, ?_⟩
          exact iteration_event_with_id s st p ret hdec (Or.inr htype) hid hdisp
        · right; left
          refine ⟨p, ret, rfl, rfl, Or.inr htype, not_le.mp hid, ?_⟩
          unfold iteration; rw [hdec, hdisp]; simp only [htype, ge_iff_le, hid, if_false]
    · left
      exact ⟨p, ret, e, rfl, rfl, by unfold iteration; rw [hdec, hdisp]⟩

/-! ## The start of `Loop` -/

theorem iteration_head_isDecode (s : Socket) (st : Step) :
    ∃ e rest, (iteration s st).2.1 = e :: rest ∧ e.isDecode = true := by
  rcases iteration_cases s st with ⟨e, _, h⟩ | ⟨p, ret, e, _, _, h⟩ | ⟨p, ret, _, _, _, h⟩ |
    ⟨p, ret, _, _, _, _, h⟩ | ⟨p, ret, _, _, _, _, h⟩ | ⟨p, ret, _, _, _, h⟩ |
    ⟨p, ret, _, _, _, h⟩ <;>
  · rw [h]
    exact ⟨_, _, rfl, rfl⟩

theorem forLoop_head_isDecode (s : Socket) (steps : List Step) :
    ((forLoop s steps).2.1 = [] ∧ (forLoop s steps).2.2 = .blocked) ∨
      ∃ e rest, (forLoop s steps).2.1 = e :: rest ∧ e.isDecode = true := by
  cases steps with
  | nil => left; exact ⟨rfl, rfl⟩
  | cons st tl =>
    right
    obtain ⟨e, rest, he, hd⟩ := iteration_head_isDecode s st
    rw [forLoop_cons]
    split
    · exact ⟨e, rest, he, hd⟩
    · exact ⟨e, rest ++ (forLoop (iteration s st).1 tl).2.1, by simp [he], hd⟩

/-- C12: in every run of `Loop`, the calls made before the first `Decode`
begin with the one `Encode` of the CONNECT packet with `Id = -1` and the empty
namespace, and no other `Encode` is among them; when that `Encode` succeeds
they are that `Encode` followed by the dispatch of the same packet (with a nil
decoder), and when it fails the run decodes nothing and goes to its cleanup. -/
theorem Loop_starts_with_connect (s : Socket) (env : LoopEnv) :
    (s.Loop env).2.1.takeWhile (fun e => !e.isDecode) =
      match env.connect with
      | none => [.encode connectPacket none, .onPacket false connectPacket]
      | some err => [.encode connectPacket (some err), .leaveAll,
          .onPacket false disconnectPacket] := by
  have h1 : ∀ (p : packet) (err : Option Error), (Event.encode p err).isDecode = false :=
    fun _ _ => rfl
  have h2 : ∀ (d : Bool) (p : packet), (Event.onPacket d p).isDecode = false := fun _ _ => rfl
  have h3 : Event.leaveAll.isDecode = false := rfl
  rw [Loop_eq]
  unfold loopBody
  cases hc : env.connect with
  | some err => simp [deferred, List.takeWhile_cons, h1, h2, h3]
  | none =>
    simp only
    rcases forLoop_head_isDecode s env.steps with ⟨hnil, hb⟩ | ⟨e, rest, he, hd⟩
    · rw [hb]
      simp [hnil, List.takeWhile_cons, h1, h2]
    · rcases hout : (forLoop s env.steps).2.2 with _ | r
      · simp [he, hd, List.takeWhile_cons, h1, h2]
      · simp [he, hd, List.takeWhile_cons, h1, h2]

/-- Worked example for C12: a run in which the peer sends CONNECT for `/chat`
and then an EVENT. -/
theorem Loop_starts_with_connect_witness :
    (Socket.Loop NewSocket ⟨none, [stepConnectChat, stepEventSeven]⟩).2.1.takeWhile
        (fun e => !e.isDecode) =
      [.encode connectPacket none, .onPacket false connectPacket] ∧
      (Socket.Loop NewSocket ⟨none, [stepConnectChat, stepEventSeven]⟩).2.1.head? =
        some (.encode ⟨._CONNECT, -1, "", []⟩ none) :=
  ⟨Loop_starts_with_connect NewSocket ⟨none, [stepConnectChat, stepEventSeven]⟩, by decide⟩

/-! ## Dispatches of DISCONNECT packets -/

theorem iteration_disconnect_counts (s : Socket) (st : Step) :
    (iteration s st).2.1.countP Event.isDisconnectDispatch =
        (iteration s st).2.1.countP Event.isDecodedDisconnect ∧
      ((iteration s st).2.1.countP Event.isDecodedDisconnect = 0 ∨
        ((iteration s st).2.1.countP Event.isDecodedDisconnect = 1 ∧
          ∃ r, (iteration s st).2.2 = some r)) := by
  rcases iteration_cases s st with ⟨e, _, h⟩ | ⟨p, ret, e, _, _, h⟩ | ⟨p, ret, _, _, ht, h⟩ |
    ⟨p, ret, _, _, ht, _, h⟩ | ⟨p, ret, _, _, ht, _, h⟩ | ⟨p, ret, _, _, ht, h⟩ |
    ⟨p, ret, _, _, ht, h⟩
  · rw [h]
    simp [List.countP_cons, Event.isDisconnectDispatch, Event.isDecodedDisconnect]
  · rw [h]
    by_cases hp : p.Type_ = ._DISCONNECT
    · simp [List.countP_cons, Event.isDisconnectDispatch, Event.isDecodedDisconnect, hp]
    · simp [List.countP_cons, Event.isDisconnectDispatch, Event.isDecodedDisconnect, hp]
  · rw [h]
    simp [List.countP_cons, Event.isDisconnectDispatch, Event.isDecodedDisconnect, ht]
  · rw [h]
    rcases ht with ht | ht <;>
      simp [List.countP_cons, Event.isDisconnectDispatch, Event.isDecodedDisconnect, ht]
  · rw [h]
    rcases ht with ht | ht <;>
      simp [List.countP_cons, Event.isDisconnectDispatch, Event.isDecodedDisconnect, ht]
  · rw [h]
    simp [List.countP_cons, Event.isDisconnectDispatch, Event.isDecodedDisconnect, ht]
  · rw [h]
    simp [List.countP_cons, Event.isDisconnectDispatch, Event.isDecodedDisconnect, ht]

theorem forLoop_disconnect_counts (steps : List Step) :
    ∀ s : Socket,
      (forLoop s steps).2.1.countP Event.isDisconnectDispatch =
          (forLoop s steps).2.1.countP Event.isDecodedDisconnect ∧
        (forLoop s steps).2.1.countP Event.isDecodedDisconnect ≤ 1 := by
  induction steps with
  | nil => intro s; simp [forLoop]
  | cons st rest ih =>
    intro s
    obtain ⟨heq, hcases⟩ := iteration_disconnect_counts s st
    rw [forLoop_cons]
    rcases hit : (iteration s st).2.2 with _ | r
    · simp only [List.countP_append]
      obtain ⟨ih1, ih2⟩ := ih (iteration s st).1
      rcases hcases with h0 | ⟨_, r, hr⟩
      · rw [heq, ih1, h0]
        exact ⟨rfl, by omega⟩
      · rw [hr] at hit
        cases hit
    · simp only
      refine ⟨heq, ?_⟩
      rcases hcases with h0 | ⟨h1, _⟩ <;> omega

theorem Loop_synthetic_disconnect_count (s : Socket) (env : LoopEnv) (r : Option Error)
    (hr : (s.Loop env).2.2 = .returned r) :
    (s.Loop env).2.1.count (.onPacket false disconnectPacket) = 1 := by
  rw [Loop_eq] at hr ⊢
  rcases hb : (loopBody s env).2.2 with _ | r'
  · rw [hb] at hr
    cases hr
  · have h0 : (loopBody s env).2.1.count (.onPacket false disconnectPacket) = 0 :=
      List.count_eq_zero.mpr (fun hmem => (loopBody_no_cleanup s env _ hmem).2 rfl)
    simp only [List.count_append, h0, deferred]
    decide

/-- C13 as stated fails: when the peer sends a DISCONNECT packet, `onPacket`
is invoked with a packet of type DISCONNECT twice in the run, once for the
decoded packet and once for the synthetic one. -/
theorem Loop_dispatches_disconnect_twice :
    (Socket.Loop NewSocket
        ⟨none, [⟨.ok ⟨._DISCONNECT, -1, "", []⟩, ([], none), none⟩]⟩).2.2 = .returned none ∧
      (Socket.Loop NewSocket
        ⟨none, [⟨.ok ⟨._DISCONNECT, -1, "", []⟩, ([], none), none⟩]⟩).2.1 =
        [.encode connectPacket none, .onPacket false connectPacket,
          .decodeOk ⟨._DISCONNECT, -1, "", []⟩, .onPacket true ⟨._DISCONNECT, -1, "", []⟩,
          .leaveAll, .onPacket false disconnectPacket] ∧
      (Socket.Loop NewSocket
        ⟨none, [⟨.ok ⟨._DISCONNECT, -1, "", []⟩, ([], none), none⟩]⟩).2.1.countP
          Event.isDisconnectDispatch = 2 := by
  decide

/-- C13, amended: in every run of `Loop` that returns, the synthetic DISCONNECT
packet is dispatched (with a nil decoder) exactly once; the invocations of
`onPacket` with a packet of type DISCONNECT are that one plus one for each
DISCONNECT packet the run decoded, of which there is at most one: exactly one
invocation when the run decoded no DISCONNECT packet, two when it did. -/
theorem Loop_disconnect_dispatches (s : Socket) (env : LoopEnv) (r : Option Error)
    (hr : (s.Loop env).2.2 = .returned r) :
    (s.Loop env).2.1.count (.onPacket false disconnectPacket) = 1 ∧
      (s.Loop env).2.1.countP Event.isDisconnectDispatch =
        1 + (s.Loop env).2.1.countP Event.isDecodedDisconnect ∧
      (s.Loop env).2.1.countP Event.isDecodedDisconnect ≤ 1 := by
  refine ⟨Loop_synthetic_disconnect_count s env r hr, ?_⟩
  rw [Loop_eq] at hr ⊢
  rcases hb : (loopBody s env).2.2 with _ | r'
  · rw [hb] at hr
    cases hr
  · simp only
    have hd1 : deferred.countP Event.isDisconnectDispatch = 1 := by decide
    have hd2 : deferred.countP Event.isDecodedDisconnect = 0 := by decide
    simp only [List.countP_append, hd1, hd2]
    unfold loopBody
    cases env.connect with
    | some err =>
      simp [List.countP_cons, Event.isDisconnectDispatch, Event.isDecodedDisconnect]
    | none =>
      obtain ⟨h1, h2⟩ := forLoop_disconnect_counts env.steps s
      have hc1 : ([Event.encode connectPacket none, Event.onPacket false connectPacket]).countP
          Event.isDisconnectDispatch = 0 := by decide
      have hc2 : ([Event.encode connectPacket none, Event.onPacket false connectPacket]).countP
          Event.isDecodedDisconnect = 0 := by decide
      simp only [List.countP_append, hc1, hc2, h1]
      omega

/-- Worked example for C13: a run ended by a decode error dispatches a
DISCONNECT packet once, the synthetic one. -/
theorem Loop_disconnect_dispatches_witness :
    (Socket.Loop NewSocket ⟨none, [⟨.error "EOF", ([], none), none⟩]⟩).2.2 =
        .returned (some "EOF") ∧
      (Socket.Loop NewSocket ⟨none, [⟨.error "EOF", ([], none), none⟩]⟩).2.1.countP
        Event.isDisconnectDispatch = 1 ∧
      (Socket.Loop NewSocket ⟨none, [⟨.error "EOF", ([], none), none⟩]⟩).2.1.count
        (.onPacket false disconnectPacket) = 1 :=
  ⟨rfl, by decide,
    (Loop_disconnect_dispatches NewSocket ⟨none, [⟨.error "EOF", ([], none), none⟩]⟩
      (some "EOF") rfl).1⟩

/-! ## The result of `Loop` -/

theorem Loop_at_iteration (s : Socket) (pre : List Step) (st : Step) (rest : List Step)
    (hpre : (forLoop s pre).2.2 = .blocked) (r : Option Error)
    (hit : (iteration (forLoop s pre).1 st).2.2 = some r) :
    (s.Loop ⟨none, pre ++ st :: rest⟩).2.2 = .returned r ∧
      (s.Loop ⟨none, pre ++ st :: rest⟩).2.1 =
        [.encode connectPacket none, .onPacket false connectPacket] ++ (forLoop s pre).2.1 ++
          (iteration (forLoop s pre).1 st).2.1 ++ deferred := by
  have hfor := forLoop_append pre s (st :: rest) hpre
  rw [forLoop_cons, hit] at hfor
  rw [Loop_eq]
  unfold loopBody
  simp [hfor]

/-- C14: when `Loop` reaches an iteration, its result is fixed by what ends
that iteration.  If `Decode` fails with `e`, `Loop` returns `e` and the failed
`Decode` is followed directly by the cleanup, with no dispatch in between; if
`onPacket` fails with `e` for the decoded packet, `Loop` returns `e`; if the
decoded packet is a DISCONNECT and its dispatch succeeds, `Loop` returns nil. -/
theorem Loop_result_by_terminal_condition (s : Socket) (pre : List Step) (st : Step)
    (rest : List Step) (hpre : (forLoop s pre).2.2 = .blocked) :
    (∀ e, st.decode = .error e →
        (s.Loop ⟨none, pre ++ st :: rest⟩).2.2 = .returned (some e) ∧
          (s.Loop ⟨none, pre ++ st :: rest⟩).2.1 =
            [.encode connectPacket none, .onPacket false connectPacket] ++
              (forLoop s pre).2.1 ++ [.decodeErr e] ++ deferred) ∧
      (∀ p e, st.decode = .ok p → st.dispatch.2 = some e →
        (s.Loop ⟨none, pre ++ st :: rest⟩).2.2 = .returned (some e)) ∧
      (∀ p, st.decode = .ok p → p.Type_ = ._DISCONNECT → st.dispatch.2 = none →
        (s.Loop ⟨none, pre ++ st :: rest⟩).2.2 = .returned none) := by
  refine ⟨?_, ?_, ?_⟩
  · intro e hdec
    have hit : iteration (forLoop s pre).1 st =
        ((forLoop s pre).1, [.decodeErr e], some (some e)) := by
      unfold iteration; rw [hdec]
    have h := Loop_at_iteration s pre st rest hpre (some e) (by rw [hit])
    rw [hit] at h
    exact h
  · intro p e hdec hdisp
    have hit : (iteration (forLoop s pre).1 st).2.2 = some (some e) := by
      unfold iteration
      rw [hdec]
      rcases hd : st.dispatch with ⟨ret, _ | e'⟩
      · rw [hd] at hdisp; cases hdisp
      · rw [hd] at hdisp
        cases hdisp
        rfl
    exact (Loop_at_iteration s pre st rest hpre (some e) hit).1
  · intro p hdec htype hdisp
    have hit : (iteration (forLoop s pre).1 st).2.2 = some none := by
      unfold iteration
      rw [hdec]
      rcases hd : st.dispatch with ⟨ret, _ | e'⟩
      · simp only [htype]
      · rw [hd] at hdisp; cases hdisp
    exact (Loop_at_iteration s pre st rest hpre none hit).1

/-- Worked example for C14: after a CONNECT for `/chat`, a failing `Decode`
makes `Loop` return its error. -/
theorem Loop_result_by_terminal_condition_witness :
    (forLoop NewSocket [stepConnectChat]).2.2 = .blocked ∧
      (Socket.Loop NewSocket
        ⟨none, [stepConnectChat] ++ ⟨.error "EOF", ([], none), none⟩ :: []⟩).2.2 =
        .returned (some "EOF") ∧
      (Socket.Loop NewSocket
        ⟨none, [stepConnectChat] ++ ⟨.ok ⟨._EVENT, -1, "/chat", ["x"]⟩,
          ([], some "handler failed"), none⟩ :: []⟩).2.2 = .returned (some "handler failed") ∧
      (Socket.Loop NewSocket
        ⟨none, [stepConnectChat] ++ ⟨.ok ⟨._DISCONNECT, -1, "/chat", []⟩,
          ([], none), none⟩ :: []⟩).2.2 = .returned none :=
  ⟨rfl,
    ((Loop_result_by_terminal_condition NewSocket [stepConnectChat]
      ⟨.error "EOF", ([], none), none⟩ [] rfl).1 "EOF" rfl).1,
    (Loop_result_by_terminal_condition NewSocket [stepConnectChat]
      ⟨.ok ⟨._EVENT, -1, "/chat", ["x"]⟩, ([], some "handler failed"), none⟩ [] rfl).2.1
        _ "handler failed" rfl rfl,
    (Loop_result_by_terminal_condition NewSocket [stepConnectChat]
      ⟨.ok ⟨._DISCONNECT, -1, "/chat", []⟩, ([], none), none⟩ [] rfl).2.2 _ rfl rfl rfl⟩

/-- C15 (what the code does): the peer sends CONNECT for `/chat` and the
`Encode` of the CONNECT reply fails.  `Loop` drops that error: it goes on to
decode the next packet, answers it, and has not returned. -/
theorem Loop_drops_connect_reply_error :
    Socket.Loop NewSocket
        ⟨none, [⟨.ok ⟨._CONNECT, -1, "/chat", []⟩, ([], none), some "write failed"⟩,
          stepEventSeven]⟩ =
      (⟨"/chat", 0⟩,
        [.encode connectPacket none, .onPacket false connectPacket,
          .decodeOk ⟨._CONNECT, -1, "/chat", []⟩, .onPacket true ⟨._CONNECT, -1, "/chat", []⟩,
          .encode ⟨._CONNECT, -1, "/chat", []⟩ (some "write failed"),
          .decodeOk ⟨._EVENT, 7, "/chat", ["ping"]⟩, .onPacket true ⟨._EVENT, 7, "/chat", ["ping"]⟩,
          .encode ⟨._ACK, 7, "/chat", []⟩ none],
        .blocked) := by
  decide

/-! ## The namespace of the connection -/

theorem iteration_keeps_namespace (s : Socket) (st : Step)
    (hst : (Action.iterate st).receivesConnect = false) :
    (iteration s st).1.namespace_ = s.namespace_ ∧
      ∀ (q : packet) (err : Option Error), Event.encode q err ∈ (iteration s st).2.1 →
        q.Type_ = ._ACK ∧ q.NSP = s.namespace_ := by
  rcases iteration_cases s st with ⟨e, _, h⟩ | ⟨p, ret, e, _, _, h⟩ | ⟨p, ret, hd, _, ht, h⟩ |
    ⟨p, ret, _, _, _, _, h⟩ | ⟨p, ret, _, _, _, _, h⟩ | ⟨p, ret, _, _, _, h⟩ |
    ⟨p, ret, _, _, _, h⟩
  · rw [h]; simp
  · rw [h]; simp
  · simp [Action.receivesConnect, hd, ht] at hst
  · rw [h]
    refine ⟨rfl, ?_⟩
    intro q err hmem
    simp only [List.mem_cons, reduceCtorEq, Event.encode.injEq, List.mem_singleton,
      List.not_mem_nil, or_false, false_or] at hmem
    rw [hmem.1]
    exact ⟨rfl, rfl⟩
  · rw [h]; simp
  · rw [h]; simp
  · rw [h]; simp

theorem runActions_namespace (acts : List Action) :
    ∀ s : Socket, (∀ a ∈ acts, a.receivesConnect = false) →
      (runActions s acts).1.namespace_ = s.namespace_ ∧
        ∀ (q : packet) (err : Option Error), Event.encode q err ∈ (runActions s acts).2 →
          (q.Type_ = ._ACK ∨ q.Type_ = ._EVENT) ∧ q.NSP = s.namespace_ := by
  induction acts with
  | nil => intro s _; simp [runActions]
  | cons a rest ih =>
    intro s hwin
    have hrest : ∀ a ∈ rest, a.receivesConnect = false :=
      fun a ha => hwin a (List.mem_cons_of_mem _ ha)
    cases a with
    | iterate st =>
      obtain ⟨hns, henc⟩ := iteration_keeps_namespace s st (hwin _ (List.mem_cons_self _ _))
      rw [runActions]
      rcases hit : iteration s st with ⟨s1, calls, _ | r⟩
      · rw [hit] at hns henc
        simp only at hns henc ⊢
        obtain ⟨ih1, ih2⟩ := ih s1 hrest
        refine ⟨by rw [ih1, hns], ?_⟩
        intro q err hmem
        rcases List.mem_append.mp hmem with hmem | hmem
        · exact ⟨Or.inl (henc q err hmem).1, (henc q err hmem).2⟩
        · rw [← hns]
          exact ih2 q err hmem
      · rw [hit] at hns henc
        simp only at hns henc ⊢
        exact ⟨hns, fun q err hmem => ⟨Or.inl (henc q err hmem).1, (henc q err hmem).2⟩⟩
    | send args enc =>
      rw [runActions]
      obtain ⟨ih1, ih2⟩ := ih s hrest
      refine ⟨ih1, ?_⟩
      intro q err hmem
      rcases List.mem_append.mp hmem with hmem | hmem
      · simp only [Socket.send, List.mem_singleton, Event.encode.injEq] at hmem
        rw [hmem.1]
        exact ⟨Or.inr rfl, rfl⟩
      · exact ih2 q err hmem
    | sendId args enc =>
      rw [runActions]
      have hns : (s.sendId args enc).1.namespace_ = s.namespace_ := by
        cases enc <;> rfl
      have htr : (s.sendId args enc).2.1 = [.encode ⟨._EVENT, s.id, s.namespace_, args⟩ enc] := by
        cases enc <;> rfl
      obtain ⟨ih1, ih2⟩ := ih (s.sendId args enc).1 hrest
      refine ⟨by rw [ih1, hns], ?_⟩
      intro q err hmem
      rcases List.mem_append.mp hmem with hmem | hmem
      · rw [htr] at hmem
        simp only [List.mem_singleton, Event.encode.injEq] at hmem
        rw [hmem.1]
        exact ⟨Or.inr rfl, rfl⟩
      · rw [← hns]
        exact ih2 q err hmem

/-- C16: when `Loop` reaches an iteration that decodes a CONNECT packet with
namespace `n` and its dispatch succeeds, the namespace of the connection
becomes `n` and the next call of the run is the `Encode` of a CONNECT packet
with `Id = -1` and `NSP = n`.  In whatever follows on the connection up to the
next decoded CONNECT (iterations of `Loop`, calls of `send` and `sendId`),
every packet handed to `Encode` is an ACK or an EVENT with `NSP = n`, and the
namespace is still `n` at the end. -/
theorem Loop_connect_sets_namespace (s : Socket) (pre : List Step) (st : Step)
    (rest : List Step) (acts : List Action) (p : packet)
    (hpre : (forLoop s pre).2.2 = .blocked) (hdec : st.decode = .ok p)
    (htype : p.Type_ = ._CONNECT) (hdisp : st.dispatch.2 = none)
    (hwin : ∀ a ∈ acts, a.receivesConnect = false) :
    (iteration (forLoop s pre).1 st).1.namespace_ = p.NSP ∧
      (∃ tail : List Event,
        (s.Loop ⟨none, pre ++ st :: rest⟩).2.1 =
          [.encode connectPacket none, .onPacket false connectPacket] ++ (forLoop s pre).2.1 ++
            [.decodeOk p, .onPacket true p, .encode ⟨._CONNECT, -1, p.NSP, []⟩ st.encode] ++
            tail) ∧
      (∀ (q : packet) (err : Option Error),
        Event.encode q err ∈ (runActions (iteration (forLoop s pre).1 st).1 acts).2 →
          (q.Type_ = ._ACK ∨ q.Type_ = ._EVENT) ∧ q.NSP = p.NSP) ∧
      (runActions (iteration (forLoop s pre).1 st).1 acts).1.namespace_ = p.NSP := by
  have hit : iteration (forLoop s pre).1 st =
      ({ (forLoop s pre).1 with namespace_ := p.NSP },
        [.decodeOk p, .onPacket true p, .encode ⟨._CONNECT, -1, p.NSP, []⟩ st.encode],
        none) := by
    unfold iteration
    rw [hdec]
    rcases hd : st.dispatch with ⟨ret, _ | e⟩
    · simp only [htype]
      rfl
    · rw [hd] at hdisp
      cases hdisp
  have hns : (iteration (forLoop s pre).1 st).1.namespace_ = p.NSP := by rw [hit]
  obtain ⟨h1, h2⟩ := runActions_namespace acts (iteration (forLoop s pre).1 st).1 hwin
  refine ⟨hns, ?_, ?_, ?_⟩
  · have hfor := forLoop_append pre s (st :: rest) hpre
    rw [forLoop_cons, hit] at hfor
    rw [Loop_eq]
    unfold loopBody
    simp only [hfor]
    rcases hout : (forLoop { (forLoop s pre).1 with namespace_ := p.NSP } rest).2.2 with _ | r
    · exact ⟨(forLoop { (forLoop s pre).1 with namespace_ := p.NSP } rest).2.1, by simp⟩
    · exact ⟨(forLoop { (forLoop s pre).1 with namespace_ := p.NSP } rest).2.1 ++ deferred,
        by simp⟩
  · intro q err hmem
    rw [← hns]
    exact h2 q err hmem
  · rw [h1, hns]

/-- Worked example for C16: after the peer's CONNECT for `/chat`, the ACK of
an EVENT and the packets of `send` and `sendId` all carry `NSP = "/chat"`. -/
theorem Loop_connect_sets_namespace_witness :
    (forLoop NewSocket []).2.2 = .blocked ∧
      (∀ a ∈ actionsAfterConnect, a.receivesConnect = false) ∧
      (runActions (iteration NewSocket stepConnectChat).1 actionsAfterConnect).2 =
        [.decodeOk ⟨._EVENT, 7, "/chat", ["ping"]⟩, .onPacket true ⟨._EVENT, 7, "/chat", ["ping"]⟩,
          .encode ⟨._ACK, 7, "/chat", []⟩ none,
          .encode ⟨._EVENT, -1, "/chat", ["hello"]⟩ none,
          .encode ⟨._EVENT, 0, "/chat", ["question"]⟩ none] ∧
      (runActions (iteration (forLoop NewSocket []).1 stepConnectChat).1
        actionsAfterConnect).1.namespace_ = (⟨._CONNECT, -1, "/chat", []⟩ : packet).NSP :=
  ⟨rfl, by decide, by decide,
    (Loop_connect_sets_namespace NewSocket [] stepConnectChat [stepEventSeven]
      actionsAfterConnect ⟨._CONNECT, -1, "/chat", []⟩ rfl rfl rfl rfl (by decide)).2.2.2⟩

/-! ## Where ACK packets come from -/

theorem iteration_ack_origin (s : Socket) (st : Step) (q : packet) (err : Option Error)
    (hq : q.Type_ = ._ACK) (hmem : Event.encode q err ∈ (iteration s st).2.1) :
    ∃ p, st.decode = .ok p ∧ (p.Type_ = ._EVENT ∨ p.Type_ = ._BINARY_EVENT) ∧ 0 ≤ p.Id ∧
      q.Id = p.Id ∧
      (iteration s st).2.1 = [.decodeOk p, .onPacket true p, .encode q err] := by
  rcases iteration_cases s st with ⟨e, _, h⟩ | ⟨p, ret, e, _, _, h⟩ | ⟨p, ret, _, _, ht, h⟩ |
    ⟨p, ret, hd, _, ht, hid, h⟩ | ⟨p, ret, _, _, ht, _, h⟩ | ⟨p, ret, _, _, ht, h⟩ |
    ⟨p, ret, _, _, ht, h⟩
  · rw [h] at hmem; simp at hmem
  · rw [h] at hmem; simp at hmem
  · rw [h] at hmem
    simp only [List.mem_cons, reduceCtorEq, Event.encode.injEq, List.mem_singleton,
      List.not_mem_nil, or_false, false_or] at hmem
    rw [hmem.1] at hq
    cases hq
  · rw [h] at hmem ⊢
    simp only [List.mem_cons, reduceCtorEq, Event.encode.injEq, List.mem_singleton,
      List.not_mem_nil, or_false, false_or] at hmem
    obtain ⟨hqe, herr⟩ := hmem
    refine ⟨p, hd, ht, hid, by rw [hqe], ?_⟩
    rw [hqe, herr]
  · rw [h] at hmem; simp at hmem
  · rw [h] at hmem; simp at hmem
  · rw [h] at hmem; simp at hmem

theorem forLoop_ack_origin (steps : List Step) :
    ∀ (s : Socket) (q : packet) (err : Option Error), q.Type_ = ._ACK →
      Event.encode q err ∈ (forLoop s steps).2.1 →
      ∃ (before after : List Event) (p : packet),
        (forLoop s steps).2.1 =
          before ++ [.decodeOk p, .onPacket true p, .encode q err] ++ after ∧
        (p.Type_ = ._EVENT ∨ p.Type_ = ._BINARY_EVENT) ∧ 0 ≤ p.Id ∧ q.Id = p.Id := by
  induction steps with
  | nil => intro s q err _ hmem; simp [forLoop] at hmem
  | cons st rest ih =>
    intro s q err hq hmem
    rw [forLoop_cons] at hmem ⊢
    rcases hit : (iteration s st).2.2 with _ | r
    · rw [hit] at hmem
      simp only [List.mem_append] at hmem
      rcases hmem with hmem | hmem
      · obtain ⟨p, _, ht, hid, hqid, htr⟩ := iteration_ack_origin s st q err hq hmem
        exact ⟨[], (forLoop (iteration s st).1 rest).2.1, p, by simp [htr], ht, hid, hqid⟩
      · obtain ⟨before, after, p, htr, ht, hid, hqid⟩ := ih _ q err hq hmem
        exact ⟨(iteration s st).2.1 ++ before, after, p, by simp [htr], ht, hid, hqid⟩
    · rw [hit] at hmem
      obtain ⟨p, _, ht, hid, hqid, htr⟩ := iteration_ack_origin s st q err hq hmem
      exact ⟨[], [], p, by simp [htr], ht, hid, hqid⟩

/-- C18: every ACK packet a run of `Loop` hands to `Encode` comes directly
after the decode and dispatch of an EVENT or BINARY_EVENT packet with
`Id >= 0` and carries that `Id`; an iteration that decodes an EVENT or
BINARY_EVENT with a negative `Id` (such as `-1`), or a CONNECT, DISCONNECT or
ACK packet, hands no ACK to `Encode`. -/
theorem Loop_ack_only_for_event_with_id (s : Socket) (env : LoopEnv) :
    (∀ (q : packet) (err : Option Error), q.Type_ = ._ACK →
        Event.encode q err ∈ (s.Loop env).2.1 →
        ∃ (before after : List Event) (p : packet),
          (s.Loop env).2.1 =
            before ++ [.decodeOk p, .onPacket true p, .encode q err] ++ after ∧
          (p.Type_ = ._EVENT ∨ p.Type_ = ._BINARY_EVENT) ∧ 0 ≤ p.Id ∧ q.Id = p.Id) ∧
      (∀ (s' : Socket) (st : Step) (p : packet), st.decode = .ok p →
        (p.Id < 0 ∨ p.Type_ = ._CONNECT ∨ p.Type_ = ._DISCONNECT ∨ p.Type_ = ._ACK) →
        ∀ (q : packet) (err : Option Error), q.Type_ = ._ACK →
          Event.encode q err ∉ (iteration s' st).2.1) := by
  constructor
  · intro q err hq hmem
    have hne : q ≠ connectPacket := by
      intro h
      rw [h] at hq
      cases hq
    rw [Loop_eq] at hmem ⊢
    have hbody : Event.encode q err ∈ (loopBody s env).2.1 := by
      rcases hb : (loopBody s env).2.2 with _ | r
      · rw [hb] at hmem; exact hmem
      · rw [hb] at hmem
        simp only [List.mem_append] at hmem
        rcases hmem with hmem | hmem
        · exact hmem
        · simp [deferred] at hmem
    unfold loopBody at hbody
    cases hc : env.connect with
    | some e =>
      rw [hc] at hbody
      simp only [List.mem_singleton, Event.encode.injEq] at hbody
      exact absurd hbody.1 hne
    | none =>
      rw [hc] at hbody
      simp only [List.cons_append, List.nil_append, List.mem_cons, Event.encode.injEq,
        reduceCtorEq, false_or] at hbody
      rcases hbody with ⟨h, _⟩ | hbody
      · exact absurd h hne
      · obtain ⟨before, after, p, htr, ht, hid, hqid⟩ :=
          forLoop_ack_origin env.steps s q err hq hbody
        unfold loopBody
        rw [hc]
        simp only
        rcases hout : (forLoop s env.steps).2.2 with _ | r
        · exact ⟨[.encode connectPacket none, .onPacket false connectPacket] ++ before,
            after, p, by simp [htr], ht, hid, hqid⟩
        · exact ⟨[.encode connectPacket none, .onPacket false connectPacket] ++ before,
            after ++ deferred, p, by simp [htr], ht, hid, hqid⟩
  · intro s' st p hdec hp q err hq hmem
    obtain ⟨p', hdec', ht, hid, _, _⟩ := iteration_ack_origin s' st q err hq hmem
    rw [hdec] at hdec'
    cases hdec'
    rcases hp with hp | hp | hp | hp
    · omega
    · rw [hp] at ht; rcases ht with ht | ht <;> cases ht
    · rw [hp] at ht; rcases ht with ht | ht <;> cases ht
    · rw [hp] at ht; rcases ht with ht | ht <;> cases ht

/-- Worked example for C18: the only ACK of the run follows the EVENT with
`Id = 7`; an EVENT with `Id = -1` is answered by no `Encode` at all. -/
theorem Loop_ack_only_for_event_with_id_witness :
    (∃ (before after : List Event) (p : packet),
        (Socket.Loop NewSocket ⟨none, [stepConnectChat, stepEventSeven]⟩).2.1 =
          before ++ [.decodeOk p, .onPacket true p, .encode ⟨._ACK, 7, "/chat", []⟩ none] ++
            after ∧
        (p.Type_ = ._EVENT ∨ p.Type_ = ._BINARY_EVENT) ∧ 0 ≤ p.Id ∧
        (⟨._ACK, 7, "/chat", []⟩ : packet).Id = p.Id) ∧
      (iteration ⟨"/chat", 0⟩ ⟨.ok ⟨._EVENT, -1, "/chat", ["x"]⟩, (["r"], none), none⟩).2.1 =
        [.decodeOk ⟨._EVENT, -1, "/chat", ["x"]⟩, .onPacket true ⟨._EVENT, -1, "/chat", ["x"]⟩] :=
  ⟨(Loop_ack_only_for_event_with_id NewSocket ⟨none, [stepConnectChat, stepEventSeven]⟩).1
      ⟨._ACK, 7, "/chat", []⟩ none rfl (by decide), by decide⟩

/-! ## How `Loop` returns -/

theorem iteration_returnsWith (s : Socket) (st : Step) (r : Option Error)
    (h : (iteration s st).2.2 = some r) : st.returnsWith r := by
  unfold Step.returnsWith
  rcases iteration_cases s st with ⟨e, hd, hi⟩ | ⟨p, ret, e, hd, hdi, hi⟩ |
    ⟨p, ret, hd, hdi, ht, hi⟩ | ⟨p, ret, hd, hdi, ht, hid, hi⟩ |
    ⟨p, ret, hd, hdi, ht, hid, hi⟩ | ⟨p, ret, hd, hdi, ht, hi⟩ | ⟨p, ret, hd, hdi, ht, hi⟩
  · rw [hi] at h
    cases h
    exact Or.inl ⟨e, hd, rfl⟩
  · rw [hi] at h
    cases h
    exact Or.inr (Or.inl ⟨p, e, hd, by rw [hdi], rfl⟩)
  · rw [hi] at h; cases h
  · rw [hi] at h
    cases henc : st.encode with
    | none => rw [henc] at h; cases h
    | some e =>
      rw [henc] at h
      cases h
      exact Or.inr (Or.inr (Or.inr ⟨p, e, hd, by rw [hdi], ht, hid, by first | exact henc | rfl, rfl⟩))
  · rw [hi] at h; cases h
  · rw [hi] at h
    cases h
    exact Or.inr (Or.inr (Or.inl ⟨p, hd, by rw [hdi], ht, rfl⟩))
  · rw [hi] at h; cases h

theorem forLoop_returned_split (steps : List Step) :
    ∀ (s : Socket) (r : Option Error), (forLoop s steps).2.2 = .returned r →
      ∃ (pre : List Step) (st : Step) (rest : List Step),
        steps = pre ++ st :: rest ∧ (forLoop s pre).2.2 = .blocked ∧
        (iteration (forLoop s pre).1 st).2.2 = some r ∧
        (forLoop s steps).2.1 = (forLoop s pre).2.1 ++ (iteration (forLoop s pre).1 st).2.1 := by
  induction steps with
  | nil => intro s r h; simp [forLoop] at h
  | cons st tl ih =>
    intro s r h
    rw [forLoop_cons] at h
    rcases hit : (iteration s st).2.2 with _ | r'
    · rw [hit] at h
      obtain ⟨pre, st', rest, hsteps, hpre, hret, htr⟩ := ih (iteration s st).1 r h
      refine ⟨st :: pre, st', rest, by rw [hsteps]; rfl, ?_, ?_, ?_⟩
      · rw [forLoop_cons, hit]
        exact hpre
      · rw [forLoop_cons, hit]
        exact hret
      · rw [forLoop_cons, hit, forLoop_cons, hit]
        simp only [htr, List.append_assoc]
    · rw [hit] at h
      cases h
      refine ⟨[], st, tl, rfl, rfl, hit, ?_⟩
      rw [forLoop_cons, hit]
      rfl

/-- C20 as stated fails: when the `Encode` of the initial CONNECT packet fails,
`Loop` returns that error although it made no `Decode` call, so none of the
three named conditions ended it. -/
theorem Loop_returns_on_connect_encode_error :
    Socket.Loop NewSocket ⟨some "write failed", []⟩ =
        (NewSocket, [.encode connectPacket (some "write failed"), .leaveAll,
          .onPacket false disconnectPacket], .returned (some "write failed")) ∧
      (Socket.Loop NewSocket ⟨some "write failed", []⟩).2.1.all (fun e => !e.isDecode) = true
        := by
  decide

/-- C20, amended: `Loop` returns only through one of five conditions: the
`Encode` of the initial CONNECT packet fails, or the run reaches an iteration
in which `Decode` fails, `onPacket` fails, the decoded packet is a DISCONNECT,
or the `Encode` of an ACK fails; the calls of that last step are directly
followed by the cleanup. -/
theorem Loop_returns_only_by (s : Socket) (env : LoopEnv) (r : Option Error)
    (hr : (s.Loop env).2.2 = .returned r) :
    (∃ e, env.connect = some e ∧ r = some e ∧
        (s.Loop env).2.1 = [.encode connectPacket (some e)] ++ deferred) ∨
      (env.connect = none ∧
        ∃ (pre : List Step) (st : Step) (rest : List Step),
          env.steps = pre ++ st :: rest ∧ (forLoop s pre).2.2 = .blocked ∧
          st.returnsWith r ∧
          (s.Loop env).2.1 =
            [.encode connectPacket none, .onPacket false connectPacket] ++
              (forLoop s pre).2.1 ++ (iteration (forLoop s pre).1 st).2.1 ++ deferred) := by
  rw [Loop_eq] at hr ⊢
  unfold loopBody at hr ⊢
  cases hc : env.connect with
  | some e =>
    left
    rw [hc] at hr
    simp only [Outcome.returned.injEq] at hr
    exact ⟨e, rfl, hr.symm, rfl⟩
  | none =>
    right
    rw [hc] at hr
    simp only at hr ⊢
    rcases hout : (forLoop s env.steps).2.2 with _ | r'
    · rw [hout] at hr
      cases hr
    · rw [hout] at hr
      simp only [Outcome.returned.injEq] at hr
      subst hr
      obtain ⟨pre, st, rest, hsteps, hpre, hret, htr⟩ :=
        forLoop_returned_split env.steps s r' hout
      exact ⟨trivial, pre, st, rest, hsteps, hpre, iteration_returnsWith _ st r' hret, by
        simp [htr]⟩

/-- Worked example for C20: a run ended by the failed `Encode` of an ACK. -/
theorem Loop_returns_only_by_witness :
    (Socket.Loop NewSocket envAckWriteFails).2.2 = .returned (some "write failed") ∧
      stepEventSevenWriteFails.returnsWith (some "write failed") ∧
      ((∃ e, envAckWriteFails.connect = some e ∧ some "write failed" = some e ∧
          (Socket.Loop NewSocket envAckWriteFails).2.1 =
            [.encode connectPacket (some e)] ++ deferred) ∨
        (envAckWriteFails.connect = none ∧
          ∃ (pre : List Step) (st : Step) (rest : List Step),
            envAckWriteFails.steps = pre ++ st :: rest ∧
            (forLoop NewSocket pre).2.2 = .blocked ∧
            st.returnsWith (some "write failed") ∧
            (Socket.Loop NewSocket envAckWriteFails).2.1 =
              [.encode connectPacket none, .onPacket false connectPacket] ++
                (forLoop NewSocket pre).2.1 ++ (iteration (forLoop NewSocket pre).1 st).2.1 ++
                deferred)) :=
  ⟨rfl,
    Or.inr (Or.inr (Or.inr ⟨_, "write failed", rfl, rfl, Or.inl rfl, by decide, rfl, rfl⟩)),
    Loop_returns_only_by NewSocket envAckWriteFails (some "write failed") rfl⟩

end Socketio
